import Mathlib

/-!
Verification of the translation queue engine of the turkish-subs subtitle
workbench.  The definitions below are a shallow embedding of the TypeScript
source: the error classifier `analyzeError`, the credential rotator
`executeWithRotation`, the per-tick queue processor `processNext`, the queue
helpers `addToQueue` / `retryCue` / `manualUpdateCue`, and the response
handling of the batch translation service call `translateBatch`.  Stateful
React code is modelled by explicit state passing; the external backend call
is a parameter of the tick; JavaScript dynamic values thrown as errors are
modelled by the inductive `JVal`, with field access on `null`/`undefined`
raising an exception (`Except.error`).
-/

set_option maxHeartbeats 1000000
set_option autoImplicit false

namespace TS

/-! ## Data model (src/utils/time.ts type declarations) -/

/-- Cue status values, from the `SubtitleCue.status` union type. -/
inductive CueStatus where
  | pending
  | translating
  | translated
  | refining
  | completed
  | error
  | analyzing_idioms
  deriving DecidableEq

/-- Provenance tag, from the `SubtitleCue.translationSource` union type. -/
inductive TranslationSource where
  | ai
  | tm
  | user
  | cache
  deriving DecidableEq

/-- Timecode record.  Only carried along; no claim computes with times. -/
structure TimeCode where
  hours : Nat
  minutes : Nat
  seconds : Nat
  milliseconds : Nat
  totalMilliseconds : Nat
  deriving DecidableEq

/-- One subtitle cue (`SubtitleCue`).  The optional `idioms` payload is
omitted: no claim touches it. -/
structure Cue where
  id : Nat
  originalId : String
  startTime : TimeCode
  endTime : TimeCode
  originalText : String
  translatedText : String
  refinedText : String
  status : CueStatus
  translationSource : Option TranslationSource
  errorMessage : Option String
  isLocked : Bool
  deriving DecidableEq

/-- File status values, from the `SubtitleFile.status` union type. -/
inductive FileStatus where
  | idle
  | processing
  | paused
  | completed
  | error
  deriving DecidableEq

/-- A subtitle file (`SubtitleFile`). -/
structure SubtitleFile where
  id : String
  name : String
  cues : List Cue
  progress : Nat
  status : FileStatus
  deriving DecidableEq

/-- Key selection strategy (`AppSettings.keySelectionStrategy`). -/
inductive KeyStrategy where
  | sequential
  | random
  deriving DecidableEq

/-- The settings fields consumed by the queue engine (`AppSettings`).
The glossary `Record<string, string>` is modelled as an association list
looked up by first occurrence. -/
structure AppSettings where
  apiKeys : List String
  keySelectionStrategy : KeyStrategy
  delayBetweenRequests : Nat
  maxRetries : Nat
  batchSize : Nat
  glossary : List (String × String)
  styleGuide : String
  contextWindowSize : Nat
  deriving DecidableEq

/-! ## JavaScript value model

Errors thrown by the backend call are untyped JavaScript values.  `JVal`
models the shapes relevant to `analyzeError`: `null`, `undefined`, strings,
numbers, booleans and plain objects (association lists of fields). -/

inductive JVal where
  | vnull
  | vundefined
  | vstr (s : String)
  | vnum (n : Int)
  | vbool (b : Bool)
  | vobj (fields : List (String × JVal))

/-- A whitespace character of the regex class `\s` / `trim` (ASCII
portion; the rare Unicode space characters are not modelled). -/
def isJsSpace (c : Char) : Bool :=
  c == ' ' || c == '\t' || c == '\n' || c == '\r' || c == '\x0b' || c == '\x0c'

/-- `String.trim` of JavaScript, structurally on the character list. -/
def jsTrim (s : String) : String :=
  ⟨((s.data.dropWhile isJsSpace).reverse.dropWhile isJsSpace).reverse⟩

/-- `toLowerCase`, structurally on the character list (ASCII case folding;
the patterns the classifier compares against are ASCII). -/
def jsToLower (s : String) : String :=
  ⟨s.data.map Char.toLower⟩

/-- Whether `pat` is a prefix of `cs` (character lists). -/
def charsStartWith : List Char → List Char → Bool
  | [], _ => true
  | _ :: _, [] => false
  | p :: ps, c :: cs => p == c && charsStartWith ps cs

/-- Whether `pat` occurs inside `cs` (character lists). -/
def charsContain (pat : List Char) : List Char → Bool
  | [] => charsStartWith pat []
  | c :: cs => charsStartWith pat (c :: cs) || charsContain pat cs

/-- `s.includes(pat)` on strings. -/
def strIncludes (s pat : String) : Bool :=
  charsContain pat.data s.data

/-- Decimal value of a digit list. -/
def digitsToNat (l : List Char) : Nat :=
  l.foldl (fun acc c => 10 * acc + (c.toNat - '0'.toNat)) 0

/-- `v` is `null` or `undefined` (property access on it throws). -/
def JVal.nullish : JVal → Bool
  | .vnull => true
  | .vundefined => true
  | _ => false

/-- JavaScript truthiness. -/
def JVal.truthy : JVal → Bool
  | .vnull => false
  | .vundefined => false
  | .vstr s => !(s == "")
  | .vnum n => !(n == 0)
  | .vbool b => b
  | .vobj _ => true

/-- Non-throwing property read: own field of an object, `undefined`
otherwise.  Used where JavaScript guarantees the receiver is not nullish
(plain access after a guard) and for the short-circuit arm of `?.`. -/
def JVal.getProp : JVal → String → JVal
  | .vobj fields, k => (fields.lookup k).getD .vundefined
  | _, _ => .vundefined

/-- Plain property access `v.k`: throws (TypeError) when `v` is nullish. -/
def JVal.getField (v : JVal) (k : String) : Except Unit JVal :=
  if v.nullish then .error () else .ok (v.getProp k)

/-- Optional chain `v?.k`: `undefined` when `v` is nullish. -/
def JVal.getOpt (v : JVal) (k : String) : JVal :=
  if v.nullish then .vundefined else v.getProp k

/-- Fragment of JavaScript `ToNumber` sufficient for the status values the
classifier compares: integer literals for strings, `null` is 0, `undefined`
and plain objects are NaN (`none`). -/
def JVal.toNumber : JVal → Option Int
  | .vnull => some 0
  | .vundefined => none
  | .vnum n => some n
  | .vbool b => some (if b then 1 else 0)
  | .vstr s =>
      let t := jsTrim s
      if t == "" then some 0
      else if t.data.all Char.isDigit then some (digitsToNat t.data)
      else none
  | .vobj _ => none

/-- JavaScript `ToString`, as used by template literal interpolation. -/
def JVal.jsToString : JVal → String
  | .vnull => "null"
  | .vundefined => "undefined"
  | .vstr s => s
  | .vnum n => toString n
  | .vbool b => if b then "true" else "false"
  | .vobj _ => "[object Object]"

/-- Strict equality of a value against a number literal (`v === n`). -/
def JVal.strictEqNum : JVal → Int → Bool
  | .vnum m, n => m == n
  | _, _ => false

/-- `v >= n` against a number literal: `ToNumber` then compare, `false`
when the coercion yields NaN. -/
def JVal.geNum (v : JVal) (n : Int) : Bool :=
  match v.toNumber with
  | some m => n ≤ m
  | none => false

mutual

/-- `JSON.stringify` on the modelled values (finite trees, so the circular
case of the source's try/catch is unreachable). -/
def jsonStringify : JVal → String
  | .vnull => "null"
  | .vundefined => "undefined"
  | .vstr s => "\"" ++ s ++ "\""
  | .vnum n => toString n
  | .vbool b => if b then "true" else "false"
  | .vobj fields => "\x7b" ++ jsonStringifyFields fields ++ "\x7d"

/-- Object body of `jsonStringify`. -/
def jsonStringifyFields : List (String × JVal) → String
  | [] => ""
  | (k, v) :: rest =>
      "\"" ++ k ++ "\":" ++ jsonStringify v ++
        (if rest.isEmpty then "" else ",") ++ jsonStringifyFields rest

end

end TS
namespace TS

/-! ## Error classifier (src/unnamed/part_000, `analyzeError`) -/

/-- Classification actions of `ErrorAction.action`. -/
inductive ErrAct where
  | retry
  | stop
  | skip
  | wait_quota
  deriving DecidableEq

/-- The `ErrorAction` interface: action, user-facing message, optional
detail, suggested delay in milliseconds. -/
structure ErrorAction where
  action : ErrAct
  message : String
  detail : Option String := none
  delay : Nat
  deriving DecidableEq

/-- `(val).toLowerCase()` after the `(msg || '')` guard: lowers a string,
throws (TypeError) on a truthy non-string. -/
def jsToLowerCase : JVal → Except Unit String
  | .vstr s => .ok (jsToLower s)
  | _ => .error ()

/-- `msg.slice(0, 100)`: string slice, throws on a non-string receiver. -/
def jsSlice100 : JVal → Except Unit String
  | .vstr s => .ok ⟨s.data.take 100⟩
  | _ => .error ()

/-- The message/status probing prologue of `analyzeError`: reads
`error.status`, then `error.response?.data?.error`, then `error.error`,
then `error.message`, falling back to `JSON.stringify(error)`.  Returns
the pair (msg, status); plain property access on a nullish `error`
throws. -/
def extractMsgStatus (error : JVal) : Except Unit (JVal × JVal) := do
  let st ← error.getField "status"
  let status0 := if st.truthy then st else JVal.vnum 0
  let resp ← error.getField "response"
  let rde := (resp.getOpt "data").getOpt "error"
  if rde.truthy then
    let m := rde.getProp "message"
    let c := rde.getProp "code"
    pure (m, if c.truthy then c else status0)
  else
    let ee ← error.getField "error"
    if ee.truthy then
      let m := ee.getProp "message"
      let c := ee.getProp "code"
      pure (m, if c.truthy then c else status0)
    else
      let em ← error.getField "message"
      if em.truthy then pure (em, status0)
      else pure (JVal.vstr (jsonStringify error), status0)

/-- Guard 1 of the classifier: quota / rate limit. -/
def guardQuota (status : JVal) (lowerMsg : String) : Bool :=
  status.strictEqNum 429 || strIncludes lowerMsg "429" ||
    strIncludes lowerMsg "quota" || strIncludes lowerMsg "exhausted" ||
    strIncludes lowerMsg "resource_exhausted"

/-- Guard 2: invalid api key (400 + "api key"). -/
def guardBadKey (status : JVal) (lowerMsg : String) : Bool :=
  status.strictEqNum 400 && strIncludes lowerMsg "api key"

/-- Guard 3: authorization failure. -/
def guardAuth (status : JVal) (lowerMsg : String) : Bool :=
  status.strictEqNum 401 || status.strictEqNum 403 ||
    strIncludes lowerMsg "unauthenticated" || strIncludes lowerMsg "permission"

/-- Guard 4: safety filter / content policy. -/
def guardSafety (lowerMsg : String) : Bool :=
  strIncludes lowerMsg "blocked" || strIncludes lowerMsg "safety" ||
    strIncludes lowerMsg "recitation" || strIncludes lowerMsg "finishreason"

/-- Guard 5: server / network errors. -/
def guardServer (status : JVal) (lowerMsg : String) : Bool :=
  status.geNum 500 || strIncludes lowerMsg "unavailable" ||
    strIncludes lowerMsg "timeout" || strIncludes lowerMsg "network" ||
    strIncludes lowerMsg "fetch"

/-- Whether any of the five pattern guards fires. -/
def matchesAnyPattern (status : JVal) (lowerMsg : String) : Bool :=
  guardQuota status lowerMsg || guardBadKey status lowerMsg ||
    guardAuth status lowerMsg || guardSafety lowerMsg || guardServer status lowerMsg

/-- The guard ladder of `analyzeError` after the message has been
lower-cased: quota, invalid key, authorization, safety filter,
server/network, then the default retry with the truncated raw message
(`msg.slice(0, 100)`, which throws on a non-string `msg`). -/
def classifyGuards (status : JVal) (lowerMsg : String) (msg : JVal) :
    Except Unit ErrorAction :=
  if guardQuota status lowerMsg then
    pure ⟨.wait_quota, "⚠️ Kota Doldu (429)",
      some "API istek sınırına ulaşıldı. Sistem otomatik olarak bekleyip tekrar deneyecek.", 2000⟩
  else if guardBadKey status lowerMsg then
    pure ⟨.stop, "⛔ Geçersiz API Anahtarı",
      some "Girilen API anahtarı hatalı. Lütfen ayarlardan kontrol edin.", 0⟩
  else if guardAuth status lowerMsg then
    pure ⟨.stop, "⛔ Yetki Hatası",
      some "API anahtarınızın bu modeli kullanma yetkisi yok veya süresi dolmuş.", 0⟩
  else if guardSafety lowerMsg then
    pure ⟨.skip, "🛡️ Güvenlik Filtresi",
      some "AI, metni \"güvenli değil\" olarak işaretlediği için çevirmedi. Bu satırı manuel çevirin.", 500⟩
  else if guardServer status lowerMsg then
    pure ⟨.retry, "☁️ Sunucu/Ağ Hatası",
      some "Google sunucularına veya internete erişilemiyor. Tekrar deneniyor.", 3000⟩
  else do
    let d ← jsSlice100 msg
    pure ⟨.retry, "❌ Hata (" ++ status.jsToString ++ ")", some d, 1000⟩

/-- The classification ladder of `analyzeError` over the probed message and
status: lower-case the (`|| \'\'`-guarded) message, then run the guard
ladder.  Lower-casing throws on a truthy non-string message. -/
def classify (status msg : JVal) : Except Unit ErrorAction := do
  let lowerMsg ← jsToLowerCase (if msg.truthy then msg else JVal.vstr "")
  classifyGuards status lowerMsg msg

/-- The error classifier `analyzeError`: probes the failure value then
classifies.  `Except.error` models a thrown TypeError. -/
def analyzeError (error : JVal) : Except Unit ErrorAction := do
  let (msg, status) ← extractMsgStatus error
  classify status msg

/-! ## Credential rotator (src/unnamed/part_000, `executeWithRotation`) -/

/-- Outcome of one invocation of the task closure with one api key:
resolved value or thrown JavaScript value. -/
inductive TaskOutcome (α : Type) where
  | ok (r : α)
  | err (e : JVal)

/-- The rotator's result shape `{success, result} | {success:false, error}`. -/
inductive ExecResult (α : Type) where
  | ok (result : α)
  | fail (err : ErrorAction)
  deriving DecidableEq

/-- Return of one `executeWithRotation` call, together with the value of the
`keyIndexRef` rotation cursor afterwards and the trace of keys the task was
invoked with (in order). -/
structure RotReturn (α : Type) where
  res : ExecResult α
  newKeyIndex : Nat
  triedKeys : List String
  deriving DecidableEq

/-- The rotation loop `while (attempts < keys.length)`.  `remaining` counts
the loop iterations left (`keys.length - attempts`), making the recursion
structural.  On success the cursor advances past the succeeding key; on
`stop` the loop aborts; on any other classification the next key is tried;
exhaustion returns the last classification (default: generic retry).
A throw inside `analyzeError` propagates. -/
def rotGo {α : Type} (keys : List String) (startIndex keyIndex0 : Nat)
    (task : String → TaskOutcome α) (lastError : Option ErrorAction) :
    (attempts remaining : Nat) → Except Unit (RotReturn α)
  | _, 0 =>
      .ok ⟨.fail (lastError.getD ⟨.retry, "Bilinmeyen Hata", none, 1000⟩), keyIndex0, []⟩
  | attempts, remaining + 1 =>
    let i := (startIndex + attempts) % keys.length
    let key := keys.getD i ""
    match task key with
    | .ok r => .ok ⟨.ok r, (i + 1) % keys.length, [key]⟩
    | .err e =>
      match analyzeError e with
      | .error u => .error u
      | .ok info =>
        match info.action with
        | .stop => .ok ⟨.fail info, keyIndex0, [key]⟩
        | _ =>
          match rotGo keys startIndex keyIndex0 task (some info) (attempts + 1) remaining with
          | .error u => .error u
          | .ok rest => .ok ⟨rest.res, rest.newKeyIndex, key :: rest.triedKeys⟩

/-- `executeWithRotation`: empty pools fall back to a single empty-string
key; `sequential` starts at the persisted cursor, `random` at a random
index (modelled by the extra parameter `rnd`). -/
def executeWithRotation {α : Type} (apiKeys : List String) (strategy : KeyStrategy)
    (rnd keyIndex : Nat) (task : String → TaskOutcome α) : Except Unit (RotReturn α) :=
  let keys := if apiKeys.isEmpty then [""] else apiKeys
  let startIndex :=
    match strategy with
    | .sequential => keyIndex
    | .random => rnd % keys.length
  rotGo keys startIndex keyIndex task none 0 keys.length

end TS
namespace TS

/-! ## Static common-word cache and memory lookup (src/unnamed/part_000) -/

/-- The static phrasebook `COMMON_WORD_CACHE`, in source order. -/
def COMMON_WORD_CACHE : List (String × String) :=
  [("yes", "Evet"), ("no", "Hayır"), ("okay", "Tamam"), ("ok", "Tamam"),
   ("thanks", "Teşekkürler"), ("thank you", "Teşekkür ederim"), ("hello", "Merhaba"),
   ("hi", "Selam"), ("goodbye", "Hoşça kal"), ("bye", "Güle güle"),
   ("what?", "Ne?"), ("why?", "Neden?"), ("who?", "Kim?"), ("help", "İmdat"),
   ("run", "Koş"), ("stop", "Dur"), ("go", "Git"), ("wait", "Bekle"),
   ("hey", "Hey"), ("wow", "Vay canına"), ("really?", "Gerçekten mi?"),
   ("please", "Lütfen"), ("sorry", "Üzgünüm"), ("excuse me", "Afedersiniz"),
   ("come on", "Hadi ama"), ("shut up", "Kapa çeneni"), ("i know", "Biliyorum"),
   ("i don\x27t know", "Bilmiyorum"), ("maybe", "Belki"), ("sure", "Elbette"),
   ("fine", "İyi"), ("good", "Güzel"), ("bad", "Kötü"), ("help me", "Yardım et"),
   ("look", "Bak"), ("listen", "Dinle"), ("exactly", "Kesinlikle"),
   ("oh my god", "Aman Tanrım"), ("jesus", "Tanrım"), ("dude", "Dostum")]

/-- A character of the JavaScript regex class `\w` (`[A-Za-z0-9_]`). -/
def isWordChar (c : Char) : Bool :=
  ('a' ≤ c && c ≤ 'z') || ('A' ≤ c && c ≤ 'Z') || ('0' ≤ c && c ≤ '9') || c == '_'

/-- `lower.replace(/[^\w\s]/gi, '')`: delete every character that is
neither a word character nor whitespace. -/
def stripNonWord (s : String) : String :=
  ⟨s.data.filter (fun c => isWordChar c || isJsSpace c)⟩

/-- The `||` chain of the memory probe: a looked-up value participates only
when truthy, so an empty-string translation falls through to the next
tier. -/
def orTruthy (x y : Option String) : Option String :=
  match x with
  | some v => if v == "" then y else some v
  | none => y

/-- `settings.glossary[clean] || translationMemory.get(lower) ||
COMMON_WORD_CACHE[lower.replace(/[^\w\s]/gi, '')]` followed by the
`if (found)` truthiness test: `some` exactly when the chain is truthy. -/
def lookupMemory (glossary tm : List (String × String)) (originalText : String) :
    Option String :=
  let clean := jsTrim originalText
  let lower := jsToLower clean
  orTruthy (glossary.lookup clean)
    (orTruthy (tm.lookup lower)
      (orTruthy (COMMON_WORD_CACHE.lookup (stripNonWord lower)) none))

/-! ## Cue batch selection (src/unnamed/part_000, `processNext` prologue) -/

/-- The batch collection loop: walk the whole queue, keep identifiers whose
cue is in `file`, and leave the loop once `batchSize` of them are
collected.  Entries belonging to other files are passed over, not a
stopping condition.  `acc` holds the collected identifiers in reverse. -/
def batchCandidates (file : SubtitleFile) (batchSize : Nat) :
    List String → List String → List String
  | [], acc => acc.reverse
  | qId :: rest, acc =>
    if file.cues.any (fun c => c.originalId == qId) then
      let acc2 := qId :: acc
      if batchSize ≤ acc2.length then acc2.reverse
      else batchCandidates file batchSize rest acc2
    else batchCandidates file batchSize rest acc

/-- Modelled from the spec: batch selection that stops "once the configured
batch size is reached or a queue entry belongs to a different file", i.e.
a contiguous prefix-run of same-file entries.  Stated only to compare with
the source's `batchCandidates`. -/
def batchCandidatesSpec (file : SubtitleFile) (batchSize : Nat)
    (queue : List String) : List String :=
  (queue.takeWhile (fun id => file.cues.any (fun c => c.originalId == id))).take batchSize

/-! ## The queue engine tick (src/unnamed/part_000, `processNext`) -/

/-- `Math.round((completedCues / totalCues) * 100)` in integer arithmetic:
`round(x) = floor(x + 1/2)` for the nonnegative ratio.  The engine applies
it only to nonempty cue lists (Lean's division by zero yields 0 where
JavaScript would produce NaN). -/
def progressOf (cues : List Cue) : Nat :=
  let total := cues.length
  let completed := (cues.filter (fun c => c.status == CueStatus.completed)).length
  (200 * completed + total) / (2 * total)

/-- `files.find(f => f.cues.some(c => c.originalId === firstId))`. -/
def fileOf (files : List SubtitleFile) (firstId : String) : Option SubtitleFile :=
  files.find? (fun f => f.cues.any (fun c => c.originalId == firstId))

/-- Step 1 of the tick: partition the batch cues into memory hits
`(originalId, hitText)` and cues that still need translation, preserving
order. -/
def partitionMemory (glossary tm : List (String × String)) :
    List Cue → List (String × String) × List Cue
  | [] => ([], [])
  | c :: cs =>
    let rest := partitionMemory glossary tm cs
    match lookupMemory glossary tm c.originalText with
    | some t => ((c.originalId, t) :: rest.1, rest.2)
    | none => (rest.1, c :: rest.2)

/-- Apply memory hits to one file: hit cues become completed with
provenance `tm`, and the file progress is recomputed. -/
def applyHits (hits : List (String × String)) (f : SubtitleFile) : SubtitleFile :=
  let newCues := f.cues.map (fun c =>
    match hits.find? (fun h => h.1 == c.originalId) with
    | some h => { c with
        translatedText := h.2,
        refinedText := h.2,
        status := .completed,
        translationSource := some .tm }
    | none => c)
  { f with cues := newCues, progress := progressOf newCues }

/-- Step 2 of the tick: mark the remaining cues `translating` and clear
their error message (progress untouched, as in the source). -/
def markTranslating (needsIds : List String) (f : SubtitleFile) : SubtitleFile :=
  { f with cues := f.cues.map (fun c =>
      if needsIds.contains c.originalId then
        { c with status := .translating, errorMessage := none }
      else c) }

/-- Success branch per file: each cue matched in `needs` (by `findIndex` on
the identifier) receives the result at its index (`undefined` past the end
of a short array; both it and `""` are falsy, modelled as `""`), becomes
completed with provenance `ai`, and progress is recomputed. -/
def applySuccess (needs : List Cue) (results : List String) (f : SubtitleFile) :
    SubtitleFile :=
  let newCues := f.cues.map (fun c =>
    match needs.findIdx? (fun n => n.originalId == c.originalId) with
    | some idx =>
      let txt := (results.get? idx).getD ""
      { c with
        translatedText := txt,
        refinedText := txt,
        status := .completed,
        translationSource := some .ai,
        errorMessage := none }
    | none => c)
  { f with cues := newCues, progress := progressOf newCues }

/-- `Map.set`: later writes shadow earlier bindings; modelled by consing,
with `List.lookup` returning the most recent binding first. -/
def tmSet (tm : List (String × String)) (k v : String) : List (String × String) :=
  (k, v) :: tm

/-- The Translation Memory upserts of the success branch: walking the
file's cues in order, every cue matched in `needs` stores
`trim().toLowerCase()` of its source text mapped to its result.  The
identifiers and source texts are unchanged by the intermediate status
updates, so folding over the pre-tick cues is the same. -/
def tmAfterSuccess (tm : List (String × String)) (fileCues needs : List Cue)
    (results : List String) : List (String × String) :=
  fileCues.foldl (fun acc c =>
    match needs.findIdx? (fun n => n.originalId == c.originalId) with
    | some idx =>
        tmSet acc (jsToLower (jsTrim c.originalText)) ((results.get? idx).getD "")
    | none => acc) tm

/-- Failure branch for non-quota, non-stop classifications: every batch cue
becomes `error` carrying `message: detail` (progress untouched, as in the
source). -/
def applyElse (needsIds : List String) (err : ErrorAction) (f : SubtitleFile) :
    SubtitleFile :=
  { f with cues := f.cues.map (fun c =>
      if needsIds.contains c.originalId then
        { c with
          status := .error,
          errorMessage := some (err.message ++ ": " ++ err.detail.getD "") }
      else c) }

/-- `setFiles(prev => prev.map(f => f.id !== file.id ? f : g(f)))`. -/
def mapFile (fid : String) (g : SubtitleFile → SubtitleFile)
    (files : List SubtitleFile) : List SubtitleFile :=
  files.map (fun f => if f.id == fid then g f else f)

/-- Resolved value of the backend task: the single-translate call resolves
to one string, the batch-translate call to an array. -/
inductive ResVal where
  | single (s : String)
  | arr (xs : List String)
  deriving DecidableEq

/-- `Array.isArray(result) ? result : [result]`. -/
def resultsArrayOf : ResVal → List String
  | .arr xs => xs
  | .single s => [s]

/-- The engine state threaded through a tick: file collection, processing
queue, in-memory Translation Memory, rotation cursor, running flag. -/
structure EngineState where
  files : List SubtitleFile
  queue : List String
  tm : List (String × String)
  keyIndex : Nat
  processing : Bool
  deriving DecidableEq

/-- What a tick decided to do next (scheduling/UI side of `processNext`). -/
inductive TickEffect where
  | stopped
  | noKeys
  | droppedStale
  | memOnly (delayMs : Nat)
  | apiSuccess (delayMs : Nat)
  | quotaWait (seconds : Nat)
  | halted (msg : String)
  | batchError (delayMs : Nat)
  | crashed
  deriving DecidableEq

/-- Result of one tick: the updated state, the decided effect, and the
identifiers a backend call was issued for (`none` when no call was made). -/
structure TickResult where
  files : List SubtitleFile
  queue : List String
  tm : List (String × String)
  keyIndex : Nat
  processing : Bool
  effect : TickEffect
  calledIds : Option (List String)
  deriving DecidableEq

/-- `settings.batchSize || 1`. -/
def tickBatchSize (s : AppSettings) : Nat :=
  if s.batchSize = 0 then 1 else s.batchSize

/-- The batch cues of a tick:
`batchCandidates.map(id => file.cues.find(c => c.originalId === id)!)`. -/
def tickBatchCues (s : AppSettings) (st : EngineState) (file : SubtitleFile) :
    List Cue :=
  (batchCandidates file (tickBatchSize s) st.queue []).filterMap
    (fun id => file.cues.find? (fun c => c.originalId == id))

/-- The memory partition of a tick's batch. -/
def tickParts (s : AppSettings) (st : EngineState) (file : SubtitleFile) :
    List (String × String) × List Cue :=
  partitionMemory s.glossary st.tm (tickBatchCues s st file)

/-- Step 2 onwards of the tick: mark `translating`, run the task through
the rotator, then branch on success / `wait_quota` / `stop` / anything
else.  The failure classification always carries an `ErrorAction` here, so
the source's `error?.action || 'retry'` default never fires.  A throw from
`analyzeError` inside the rotator propagates out of the tick (`crashed`). -/
def tickApiPhase (s : AppSettings) (rnd : Nat) (task : String → TaskOutcome ResVal)
    (file : SubtitleFile) (needs : List Cue) (files1 : List SubtitleFile)
    (queue1 : List String) (st : EngineState) : TickResult :=
  let needsIds := needs.map (fun c => c.originalId)
  let files2 := mapFile file.id (markTranslating needsIds) files1
  match executeWithRotation s.apiKeys s.keySelectionStrategy rnd st.keyIndex task with
  | .error _ => ⟨files2, queue1, st.tm, st.keyIndex, st.processing, .crashed, some needsIds⟩
  | .ok rot =>
    match rot.res with
    | .ok r =>
      let results := resultsArrayOf r
      let files3 := mapFile file.id (applySuccess needs results) files2
      let tm2 := tmAfterSuccess st.tm file.cues needs results
      let queue2 := queue1.filter (fun id => !(needsIds.contains id))
      ⟨files3, queue2, tm2, rot.newKeyIndex, st.processing,
        .apiSuccess s.delayBetweenRequests, some needsIds⟩
    | .fail err =>
      match err.action with
      | .wait_quota =>
        ⟨files2, queue1, st.tm, rot.newKeyIndex, st.processing, .quotaWait 60, some needsIds⟩
      | .stop =>
        ⟨files2, queue1, st.tm, rot.newKeyIndex, false, .halted err.message, some needsIds⟩
      | _ =>
        let files3 := mapFile file.id (applyElse needsIds err) files2
        let queue2 := queue1.filter (fun id => !(needsIds.contains id))
        ⟨files3, queue2, st.tm, rot.newKeyIndex, st.processing, .batchError 1000, some needsIds⟩

/-- One tick of the queue engine (`processNext`): guard checks, stale-head
drop, batch selection, memory partition, immediate memory-hit application
(the short 50 ms re-tick when the whole batch was satisfied), then the API
phase. -/
def processNext (s : AppSettings) (rnd : Nat) (task : String → TaskOutcome ResVal)
    (st : EngineState) : TickResult :=
  if !st.processing || st.queue.isEmpty then
    ⟨st.files, st.queue, st.tm, st.keyIndex, false, .stopped, none⟩
  else if s.apiKeys.isEmpty then
    ⟨st.files, st.queue, st.tm, st.keyIndex, false, .noKeys, none⟩
  else
    match fileOf st.files (st.queue.headD "") with
    | none => ⟨st.files, st.queue.drop 1, st.tm, st.keyIndex, st.processing, .droppedStale, none⟩
    | some file =>
      let parts := tickParts s st file
      let hits := parts.1
      let needs := parts.2
      if hits.isEmpty then
        tickApiPhase s rnd task file needs st.files st.queue st
      else
        let files1 := mapFile file.id (applyHits hits) st.files
        let hitIds := hits.map (fun h => h.1)
        let queue1 := st.queue.filter (fun id => !(hitIds.contains id))
        if needs.isEmpty then
          ⟨files1, queue1, st.tm, st.keyIndex, st.processing, .memOnly 50, none⟩
        else
          tickApiPhase s rnd task file needs files1 queue1 st

/-! ## Queue helpers (src/unnamed/part_000) -/

/-- `[...new Set(xs)]`: keep the first occurrence of each element. -/
def dedupFirst (seen : List String) : List String → List String
  | [] => []
  | x :: xs =>
    if seen.contains x then dedupFirst seen xs
    else x :: dedupFirst (x :: seen) xs

/-- `addToQueue`: append the file's pending/error cue identifiers at the
tail, deduplicated via `new Set`. -/
def addToQueue (files : List SubtitleFile) (queue : List String) (fileId : String) :
    List String :=
  match files.find? (fun f => f.id == fileId) with
  | none => queue
  | some file =>
    let pendingCues := (file.cues.filter (fun c =>
        c.status == CueStatus.pending || c.status == CueStatus.error)).map
      (fun c => c.originalId)
    dedupFirst [] (queue ++ pendingCues)

/-- `retryCue`: reset the cue to pending and add its identifier to the top
of the queue (no deduplication in the source). -/
def retryCue (files : List SubtitleFile) (queue : List String)
    (activeFileId : Option String) (cueId : String) :
    List SubtitleFile × List String :=
  match activeFileId with
  | none => (files, queue)
  | some afid =>
    (files.map (fun f =>
       if f.id == afid then
         { f with cues := f.cues.map (fun c =>
             if c.originalId == cueId then
               { c with status := .pending, errorMessage := none }
             else c) }
       else f),
     cueId :: queue)

/-- Which text field a manual edit targets. -/
inductive UpdateType where
  | translated
  | refined
  deriving DecidableEq

/-- `manualUpdateCue`: set the edited field, lock the cue, force status
`completed` with provenance `user`; the file record keeps its old
`progress` (the source returns `{ ...f, cues: newCues }` without
recomputing it).  When the cue resolves and the new text is nonempty after
trimming, the normalized source text is upserted into the Translation
Memory (the backend POST is an external effect, not modelled). -/
def manualUpdateCue (files : List SubtitleFile) (tm : List (String × String))
    (activeFileId : Option String) (cueId : String) (text : String)
    (ty : UpdateType) : List SubtitleFile × List (String × String) :=
  match activeFileId with
  | none => (files, tm)
  | some afid =>
    let cue := (files.find? (fun f => f.id == afid)).bind
      (fun f => f.cues.find? (fun c => c.originalId == cueId))
    let files2 := files.map (fun f =>
      if f.id == afid then
        { f with cues := f.cues.map (fun c =>
            if c.originalId == cueId then
              (match ty with
               | .refined => { c with
                   refinedText := text,
                   isLocked := true,
                   status := .completed,
                   errorMessage := none,
                   translationSource := some .user }
               | .translated => { c with
                   translatedText := text,
                   isLocked := true,
                   status := .completed,
                   errorMessage := none,
                   translationSource := some .user })
            else c) }
      else f)
    let tm2 :=
      match cue with
      | some c =>
        if 0 < (jsTrim text).length then tmSet tm (jsToLower (jsTrim c.originalText)) text
        else tm
      | none => tm
    (files2, tm2)

/-! ## Batch-translate response handling (src/unnamed/part_004) -/

/-- Parsed JSON values returned by the model for a batch request. -/
inductive JsonV where
  | jstr (s : String)
  | jnum (n : Int)
  | jbool (b : Bool)
  | jnull
  | jarr (xs : List JsonV)
  | jobj

/-- The response handling tail of `translateBatch`, after the raw text is
validated and cleaned: `JSON.parse` failure throws; an array of the
requested length is returned; an array of a DIFFERENT length is also
returned to the caller ("Mismatch length recovery attempt" in the source)
instead of being rejected; any non-array throws. -/
def translateBatchResult (texts : List String) (parsed : Except Unit JsonV) :
    Except String (List JsonV) :=
  match parsed with
  | .error _ => .error "AI yanıtı geçerli JSON değil."
  | .ok r =>
    match r with
    | .jarr xs =>
      if xs.length == texts.length then .ok xs
      else .ok xs
    | _ => .error "Invalid batch response format"

end TS
namespace TS

/-! ## Concrete fixtures used by counterexamples and witnesses -/

/-- A zero timecode for sample cues. -/
def sampleTime : TimeCode := ⟨0, 0, 0, 0, 0⟩

/-- A sample cue with the given identifier, source text and status. -/
def sampleCue (oid text : String) (st : CueStatus) : Cue :=
  ⟨0, oid, sampleTime, sampleTime, text, "", "", st, none, none, false⟩

/-- A file holding pending cues `a` and `c` (no cue `b`). -/
def sampleFileAC : SubtitleFile :=
  ⟨"F", "f.srt", [sampleCue "a" "zzz" .pending, sampleCue "c" "yyy" .pending], 0, .idle⟩

/-- A file with two pending cues sharing the source text `zzz`. -/
def sampleFileAB : SubtitleFile :=
  ⟨"H", "h.srt", [sampleCue "a" "zzz" .pending, sampleCue "b" "zzz" .pending], 0, .idle⟩

/-- A one-cue file for the manual-edit scenario. -/
def sampleFileG : SubtitleFile :=
  ⟨"G", "g.srt", [sampleCue "x" "source line" .pending], 0, .idle⟩

/-- Sequential one-key settings with an empty glossary. -/
def sampleSettings : AppSettings := ⟨["k"], .sequential, 5000, 3, 1, [], "", 2⟩

/-! ## Shared helper lemmas -/

/-- `List.contains` agrees with membership for strings. -/
lemma contains_eq_false_iff (l : List String) (a : String) :
    l.contains a = false ↔ a ∉ l := by
  simp

/-- The batch collection loop computes the first `n` same-file identifiers
of the queue: it filters the whole queue by file membership and truncates,
rather than stopping at the first other-file entry. -/
lemma batchCandidates_go_eq (file : SubtitleFile) (n : Nat) :
    ∀ (queue acc : List String), acc.length < n →
      batchCandidates file n queue acc =
        acc.reverse ++
          (queue.filter (fun id => file.cues.any (fun c => c.originalId == id))).take
            (n - acc.length) := by
  intro queue
  induction queue with
  | nil => intro acc _; simp [batchCandidates]
  | cons qId rest ih =>
    intro acc hlt
    by_cases hin : file.cues.any (fun c => c.originalId == qId)
    · by_cases hfull : n ≤ (qId :: acc).length
      · have hn1 : n - acc.length = 1 := by
          simp only [List.length_cons] at hfull; omega
        simp only [batchCandidates, hin, if_true, hfull, if_true, List.filter_cons,
          hn1, List.reverse_cons]
        simp [List.take_succ_cons]
      · have hlt2 : (qId :: acc).length < n := by omega
        obtain ⟨k, hk⟩ : ∃ k, n - acc.length = k + 1 := ⟨n - acc.length - 1, by omega⟩
        have hk2 : n - (qId :: acc).length = k := by
          simp only [List.length_cons]; omega
        simp only [batchCandidates, hin, if_true, hfull, if_false, List.filter_cons]
        rw [ih (qId :: acc) hlt2, hk2, hk]
        simp [List.take_succ_cons]
    · simp only [batchCandidates, hin, if_false, List.filter_cons]
      rw [ih acc hlt]
      simp [hin]

/-- `dedupFirst` yields a duplicate-free list none of whose elements were
already seen. -/
lemma dedupFirst_nodup :
    ∀ (l seen : List String),
      (dedupFirst seen l).Nodup ∧ ∀ x ∈ dedupFirst seen l, x ∉ seen := by
  intro l
  induction l with
  | nil => intro seen; simp [dedupFirst]
  | cons x xs ih =>
    intro seen
    by_cases hc : x ∈ seen
    · simpa [dedupFirst, hc] using ih seen
    · obtain ⟨hnd, hmem⟩ := ih (x :: seen)
      have hcf : ¬(seen.contains x = true) := by simpa using hc
      simp only [dedupFirst]
      rw [if_neg hcf]
      refine ⟨List.nodup_cons.mpr ⟨fun hx => ?_, hnd⟩, ?_⟩
      · exact (hmem x hx) (List.mem_cons_self x seen)
      · intro y hy
        rcases List.mem_cons.mp hy with rfl | hy2
        · exact hc
        · exact fun hys => (hmem y hy2) (List.mem_cons_of_mem x hys)

end TS
namespace TS

/-! ## Claim C1 — batch length mismatch handling -/

/-- C1: the claim says a batch response whose array length differs from the
request length is rejected as an error; the source instead RETURNS the
mismatched array to the caller ("Mismatch length recovery attempt").
Evaluating the response handler at a two-text request answered by a
one-element array: the call succeeds and hands back the short array. -/
theorem translateBatch_mismatch_returned :
    translateBatchResult ["a", "b"] (Except.ok (JsonV.jarr [JsonV.jstr "x"])) =
      Except.ok [JsonV.jstr "x"] ∧
    [JsonV.jstr "x"].length = 1 ∧ (["a", "b"] : List String).length = 2 :=
  ⟨rfl, rfl, rfl⟩

/-! ## Claim C3 — batch selection walks the whole queue -/

/-- C3 counterexample: with queue `[a, b, c]`, cue `b` belonging to a
different file, and batch size 2, the source's selection collects
`[a, c]` — it skips over the other-file entry `b` and keeps later
same-file entries — whereas the spec's stop-at-other-file selection
(`batchCandidatesSpec`) would select only `[a]`. -/
theorem batchCandidates_skips_other_file :
    batchCandidates sampleFileAC 2 ["a", "b", "c"] [] = ["a", "c"] ∧
    batchCandidatesSpec sampleFileAC 2 ["a", "b", "c"] = ["a"] ∧
    (["a", "c"] : List String) ≠ ["a"] :=
  ⟨rfl, rfl, by decide⟩

/-- C3 amended: batch selection walks the queue from the front collecting
identifiers of the head's file, skipping over other-file entries rather
than stopping at them, until the batch size is reached or the queue is
exhausted — the selected batch is exactly the first `batchSize` same-file
identifiers of the queue (so it never contains an identifier of a
different file, but it need not be a contiguous prefix-run). -/
theorem batchCandidates_eq_filter_take (file : SubtitleFile) (n : Nat)
    (queue : List String) (hn : 1 ≤ n) :
    batchCandidates file n queue [] =
      (queue.filter (fun id => file.cues.any (fun c => c.originalId == id))).take n := by
  have h := batchCandidates_go_eq file n queue [] (by simpa using hn)
  simpa using h

/-- C3 witness: the amended characterization evaluated at the concrete
counterexample scenario. -/
theorem batchCandidates_eq_filter_take_witness :
    1 ≤ 2 ∧
    batchCandidates sampleFileAC 2 ["a", "b", "c"] [] =
      ((["a", "b", "c"] : List String).filter
        (fun id => sampleFileAC.cues.any (fun c => c.originalId == id))).take 2 :=
  ⟨by decide, batchCandidates_eq_filter_take sampleFileAC 2 ["a", "b", "c"] (by decide)⟩

/-! ## Claim C4 — queue uniqueness -/

/-- C4 counterexample: retrying a cue whose identifier is already queued
prepends it without deduplication, so the queue holds it twice. -/
theorem retryCue_duplicates_queued_id :
    (retryCue [sampleFileAC] ["a"] (some "F") "a").2 = ["a", "a"] ∧
    ¬ (["a", "a"] : List String).Nodup :=
  ⟨rfl, by decide⟩

/-- C4 amended: bulk start (`addToQueue`) always leaves a duplicate-free
queue thanks to the `new Set` deduplication (here from a duplicate-free
starting queue), but manual retry (`retryCue`) prepends the identifier
unconditionally, so it preserves uniqueness only when the retried
identifier is not already in the queue; retrying an already-queued
identifier produces a duplicate. -/
theorem queue_uniqueness (files : List SubtitleFile) (queue : List String)
    (fileId : String) (files2 : List SubtitleFile) (q2 : List String)
    (afid cueId : String) (hq : queue.Nodup) (hnotin : cueId ∉ q2)
    (hnd : q2.Nodup) :
    (addToQueue files queue fileId).Nodup ∧
    ((retryCue files2 q2 (some afid) cueId).2).Nodup := by
  constructor
  · unfold addToQueue
    cases files.find? (fun f => f.id == fileId) with
    | none => exact hq
    | some file => exact (dedupFirst_nodup _ []).1
  · simpa [retryCue] using List.nodup_cons.mpr ⟨hnotin, hnd⟩

/-- C4 witness: the amended statement at a concrete queue. -/
theorem queue_uniqueness_witness :
    (["q"] : List String).Nodup ∧ ("a" : String) ∉ (["c"] : List String) ∧
    (["c"] : List String).Nodup ∧
    ((addToQueue [sampleFileAC] ["q"] "F").Nodup ∧
      ((retryCue [sampleFileAC] ["c"] (some "F") "a").2).Nodup) :=
  ⟨by decide, by decide, by decide,
    queue_uniqueness [sampleFileAC] ["q"] "F" [sampleFileAC] ["c"] "F" "a"
      (by decide) (by decide) (by decide)⟩

/-! ## Claim C9 — progress recomputation -/

/-- C9 counterexample: manually editing the only cue of a one-cue pending
file forces the cue to `completed` but leaves the file's `progress` at 0,
while the recomputed ratio is 100. -/
theorem manualUpdateCue_stale_progress :
    ((manualUpdateCue [sampleFileG] [] (some "G") "x" "Çeviri"
        UpdateType.translated).1).map (fun f => f.progress) = [0] ∧
    ((manualUpdateCue [sampleFileG] [] (some "G") "x" "Çeviri"
        UpdateType.translated).1).map (fun f => progressOf f.cues) = [100] ∧
    (0 : Nat) ≠ 100 :=
  ⟨rfl, rfl, by decide⟩

/-- C9 amended: the queue engine's cue mutations (memory-hit application
and API-success application) recompute `progress` as
`round(100 * completed / total)`, but `manualUpdateCue` does not: a manual
edit leaves every file's `progress` unchanged, so the stored progress can
differ from the recomputed ratio after a manual edit. -/
theorem progress_recomputation :
    (∀ (hits : List (String × String)) (f : SubtitleFile),
      (applyHits hits f).progress = progressOf (applyHits hits f).cues) ∧
    (∀ (needs : List Cue) (results : List String) (f : SubtitleFile),
      (applySuccess needs results f).progress = progressOf (applySuccess needs results f).cues) ∧
    (∀ (files : List SubtitleFile) (tm : List (String × String))
        (afid : Option String) (cueId text : String) (ty : UpdateType),
      ((manualUpdateCue files tm afid cueId text ty).1).map (fun f => f.progress) =
        files.map (fun f => f.progress)) := by
  refine ⟨fun hits f => rfl, fun needs results f => rfl, ?_⟩
  intro files tm afid cueId text ty
  cases afid with
  | none => rfl
  | some a =>
    simp only [manualUpdateCue, List.map_map]
    apply List.map_congr_left
    intro f _
    simp only [Function.comp_apply]
    by_cases h : (f.id == a) = true
    · rw [if_pos h]
    · rw [if_neg h]

end TS
namespace TS

/-! ## Claim C10 — punctuation-bearing cache keys are unreachable -/

/-- C10: the static-cache lookup key is the trimmed lower-cased cue text
with every character outside `[A-Za-z0-9_]` and whitespace deleted, so it
consists of word/space characters only; consequently no cache entry whose
key contains any other character (punctuation such as `?` or an
apostrophe) can ever be selected — and the keys `what?`, `really?`,
`i don\x27t know` are such keys. -/
theorem cache_punctuation_keys_unreachable :
    (∀ text : String,
      ((stripNonWord (jsToLower (jsTrim text))).data.all
        (fun ch => isWordChar ch || isJsSpace ch)) = true) ∧
    (∀ (text k v : String), (k, v) ∈ COMMON_WORD_CACHE →
      (k.data.any (fun ch => !(isWordChar ch || isJsSpace ch))) = true →
      stripNonWord (jsToLower (jsTrim text)) ≠ k) ∧
    ((("what?" : String).data.any (fun ch => !(isWordChar ch || isJsSpace ch))) = true ∧
     (("really?" : String).data.any (fun ch => !(isWordChar ch || isJsSpace ch))) = true ∧
     (("i don\x27t know" : String).data.any (fun ch => !(isWordChar ch || isJsSpace ch))) = true) := by
  have h1 : ∀ text : String,
      ((stripNonWord (jsToLower (jsTrim text))).data.all
        (fun ch => isWordChar ch || isJsSpace ch)) = true := by
    intro text
    apply List.all_eq_true.mpr
    intro ch hch
    exact (List.mem_filter.mp hch).2
  refine ⟨h1, ?_, by decide, by decide, by decide⟩
  intro text k v _ hbad heq
  obtain ⟨ch, hch, hb⟩ := List.any_eq_true.mp hbad
  have hch2 : ch ∈ (stripNonWord (jsToLower (jsTrim text))).data := by rw [heq]; exact hch
  have := List.all_eq_true.mp (h1 text) ch hch2
  simp [this] at hb

/-- C10 witness: the unreachability statement applied to the cache entry
`("what?", "Ne?")` and the input `"What?"`. -/
theorem cache_punctuation_keys_unreachable_witness :
    (("what?", "Ne?") ∈ COMMON_WORD_CACHE ∧
      (("what?" : String).data.any (fun ch => !(isWordChar ch || isJsSpace ch))) = true) ∧
    stripNonWord (jsToLower (jsTrim "What?")) ≠ "what?" :=
  ⟨⟨by decide, by decide⟩,
    cache_punctuation_keys_unreachable.2.1 "What?" "what?" "Ne?" (by decide) (by decide)⟩

/-! ## Claim C2 — credential failover -/

/-- Core run of the rotation loop: `m` consecutive failures whose
classification is not `stop`, followed by a success, consume exactly the
keys at rotation positions `attempts .. attempts+m` and leave the cursor
one past the succeeding position. -/
lemma rotGo_quota_run {α : Type} (keys : List String) (start k0 : Nat)
    (task : String → TaskOutcome α) (r : α) :
    ∀ (m attempts : Nat) (le : Option ErrorAction),
      attempts + m < keys.length →
      (∀ j, j < m →
        ∃ e a, task (keys.getD ((start + (attempts + j)) % keys.length) "") =
            TaskOutcome.err e ∧
          analyzeError e = Except.ok a ∧ a.action ≠ ErrAct.stop) →
      task (keys.getD ((start + (attempts + m)) % keys.length) "") = TaskOutcome.ok r →
      rotGo keys start k0 task le attempts (keys.length - attempts) =
        Except.ok ⟨ExecResult.ok r,
          ((start + (attempts + m)) % keys.length + 1) % keys.length,
          (List.range (m + 1)).map
            (fun j => keys.getD ((start + (attempts + j)) % keys.length) "")⟩ := by
  intro m
  induction m with
  | zero =>
    intro attempts le hlt hsucc
    intro hs
    rw [Nat.add_zero] at hlt hs
    obtain ⟨rr, hrr⟩ : ∃ rr, keys.length - attempts = rr + 1 :=
      ⟨keys.length - attempts - 1, by omega⟩
    rw [hrr]
    simp only [rotGo]
    rw [hs]
    simp [List.range_succ]
  | succ m ih =>
    intro attempts le hlt hfail hsucc
    obtain ⟨e, a, hte, hae, has⟩ := hfail 0 (by omega)
    rw [Nat.add_zero] at hte
    obtain ⟨rr, hrr⟩ : ∃ rr, keys.length - attempts = rr + 1 :=
      ⟨keys.length - attempts - 1, by omega⟩
    have hrr2 : keys.length - (attempts + 1) = rr := by omega
    have harith2 : attempts + (m + 1) = attempts + 1 + m := by omega
    have hstep := ih (attempts + 1) (some a) (by omega)
      (fun j hj => by
        obtain ⟨e2, a2, h1, h2, h3⟩ := hfail (j + 1) (by omega)
        have harith : attempts + (j + 1) = attempts + 1 + j := by omega
        rw [harith] at h1
        exact ⟨e2, a2, h1, h2, h3⟩)
      (by rw [harith2] at hsucc; exact hsucc)
    rw [hrr2] at hstep
    rw [hrr, harith2]
    simp only [rotGo, hte, hae]
    cases hact : a.action with
    | stop => exact absurd hact has
    | retry =>
      simp only [hstep]
      refine congrArg Except.ok (congrArg (RotReturn.mk _ _) ?_)
      conv_rhs => rw [List.range_succ_eq_map, List.map_cons, List.map_map]
      refine congrArg₂ List.cons rfl ?_
      apply List.map_congr_left
      intro j _
      show keys.getD ((start + (attempts + 1 + j)) % keys.length) "" =
        keys.getD ((start + (attempts + Nat.succ j)) % keys.length) ""
      have h12 : attempts + 1 + j = attempts + Nat.succ j := by omega
      rw [h12]
    | skip =>
      simp only [hstep]
      refine congrArg Except.ok (congrArg (RotReturn.mk _ _) ?_)
      conv_rhs => rw [List.range_succ_eq_map, List.map_cons, List.map_map]
      refine congrArg₂ List.cons rfl ?_
      apply List.map_congr_left
      intro j _
      show keys.getD ((start + (attempts + 1 + j)) % keys.length) "" =
        keys.getD ((start + (attempts + Nat.succ j)) % keys.length) ""
      have h12 : attempts + 1 + j = attempts + Nat.succ j := by omega
      rw [h12]
    | wait_quota =>
      simp only [hstep]
      refine congrArg Except.ok (congrArg (RotReturn.mk _ _) ?_)
      conv_rhs => rw [List.range_succ_eq_map, List.map_cons, List.map_map]
      refine congrArg₂ List.cons rfl ?_
      apply List.map_congr_left
      intro j _
      show keys.getD ((start + (attempts + 1 + j)) % keys.length) "" =
        keys.getD ((start + (attempts + Nat.succ j)) % keys.length) ""
      have h12 : attempts + 1 + j = attempts + Nat.succ j := by omega
      rw [h12]

end TS
namespace TS

/-- C2: with the sequential strategy, a pool of N keys, a task that fails
with a `wait_quota` classification on the first N-1 keys in rotation order
from the cursor and succeeds on the N-th, one `executeWithRotation` call
invokes the task exactly N times, on exactly those keys in rotation order
starting at the cursor (`triedKeys`), returns success with the N-th key's
result, and leaves the rotation cursor advanced to the index after the
succeeding key. -/
theorem executeWithRotation_failover {α : Type} (apiKeys : List String)
    (cursor rnd : Nat) (task : String → TaskOutcome α) (r : α)
    (hne : apiKeys ≠ [])
    (hfail : ∀ j, j < apiKeys.length - 1 →
      ∃ e a, task (apiKeys.getD ((cursor + j) % apiKeys.length) "") =
          TaskOutcome.err e ∧
        analyzeError e = Except.ok a ∧ a.action = ErrAct.wait_quota)
    (hsucc : task (apiKeys.getD ((cursor + (apiKeys.length - 1)) % apiKeys.length) "") =
      TaskOutcome.ok r) :
    executeWithRotation apiKeys KeyStrategy.sequential rnd cursor task =
      Except.ok ⟨ExecResult.ok r,
        ((cursor + (apiKeys.length - 1)) % apiKeys.length + 1) % apiKeys.length,
        (List.range apiKeys.length).map
          (fun j => apiKeys.getD ((cursor + j) % apiKeys.length) "")⟩ := by
  have hlen : 0 < apiKeys.length := List.length_pos.mpr hne
  have hemp : apiKeys.isEmpty = false := by
    cases h : apiKeys.isEmpty with
    | false => rfl
    | true => exact absurd (List.isEmpty_iff.mp h) hne
  have hrun := rotGo_quota_run apiKeys cursor cursor task r (apiKeys.length - 1) 0 none
    (by omega)
    (by
      intro j hj
      obtain ⟨e, a, h1, h2, h3⟩ := hfail j hj
      exact ⟨e, a, by simpa using h1, h2, by rw [h3]; exact fun h => by cases h⟩)
    (by simpa using hsucc)
  rw [Nat.sub_zero] at hrun
  have hm1 : apiKeys.length - 1 + 1 = apiKeys.length := by omega
  unfold executeWithRotation
  rw [hemp]
  simp only [Bool.false_eq_true, if_neg, ite_false]
  rw [hrun, hm1]
  simp

/-- Quota-style error value used by the failover witness. -/
def wQuotaErr : JVal := JVal.vobj [("message", JVal.vstr "quota")]

/-- The classification of `wQuotaErr`. -/
def wQuotaAct : ErrorAction :=
  ⟨.wait_quota, "⚠️ Kota Doldu (429)",
    some "API istek sınırına ulaşıldı. Sistem otomatik olarak bekleyip tekrar deneyecek.", 2000⟩

/-- Witness task: succeeds on key `A`, reports quota exhaustion on all
other keys. -/
def wTask : String → TaskOutcome Nat :=
  fun k => if k == "A" then TaskOutcome.ok 7 else TaskOutcome.err wQuotaErr

/-- C2 witness: a concrete three-key pool with the cursor at 1; keys `B`
and `C` report quota, `A` succeeds; the call tries `B`, `C`, `A` in order,
returns 7 and leaves the cursor at 1. -/
theorem executeWithRotation_failover_witness :
    (["A", "B", "C"] : List String) ≠ [] ∧
    wTask "B" = TaskOutcome.err wQuotaErr ∧
    wTask "C" = TaskOutcome.err wQuotaErr ∧
    wTask "A" = TaskOutcome.ok 7 ∧
    executeWithRotation ["A", "B", "C"] KeyStrategy.sequential 0 1 wTask =
      Except.ok ⟨ExecResult.ok 7, 1, ["B", "C", "A"]⟩ := by
  refine ⟨by decide, rfl, rfl, rfl, ?_⟩
  have h := executeWithRotation_failover ["A", "B", "C"] 1 0 wTask 7 (by decide)
    (by
      intro j hj
      have hj2 : j < 2 := by simpa using hj
      interval_cases j
      · exact ⟨wQuotaErr, wQuotaAct, rfl, by rfl, rfl⟩
      · exact ⟨wQuotaErr, wQuotaAct, rfl, by rfl, rfl⟩)
    rfl
  exact h

end TS
namespace TS

/-! ## Tick lemmas: memory hits, cue updates, file mapping -/

/-- A `find?` over a list containing a satisfying element succeeds. -/
lemma find?_isSome_of_mem {α : Type} (p : α → Bool) :
    ∀ (l : List α) (a : α), a ∈ l → p a = true → ∃ b, l.find? p = some b := by
  intro l
  induction l with
  | nil => intro a ha _; cases ha
  | cons x xs ih =>
    intro a ha hp
    cases hpx : p x with
    | true => exact ⟨x, by rw [List.find?_cons, hpx]⟩
    | false =>
      rcases List.mem_cons.mp ha with rfl | ha2
      · rw [hpx] at hp; cases hp
      · obtain ⟨b, hb⟩ := ih a ha2 hp
        exact ⟨b, by rw [List.find?_cons, hpx, hb]⟩

/-- The indexed search loop of `findIdx?` exhibits a satisfying member on
success. -/
lemma findIdx?_go_some_imp_mem {α : Type} (p : α → Bool) :
    ∀ (l : List α) (i j : Nat), List.findIdx? p l i = some j → ∃ x ∈ l, p x = true := by
  intro l
  induction l with
  | nil => intro i j h; simp [List.findIdx?] at h
  | cons x xs ih =>
    intro i j h
    rw [List.findIdx?_cons] at h
    cases hpx : p x with
    | true => exact ⟨x, List.mem_cons_self _ _, hpx⟩
    | false =>
      rw [hpx] at h
      simp only [Bool.false_eq_true, if_false] at h
      obtain ⟨y, hy, hpy⟩ := ih (i + 1) j h
      exact ⟨y, List.mem_cons_of_mem x hy, hpy⟩

/-- A successful `findIdx?` exhibits a satisfying member. -/
lemma findIdx?_some_imp_mem {α : Type} (p : α → Bool) (l : List α) (i : Nat)
    (h : l.findIdx? p = some i) : ∃ x ∈ l, p x = true :=
  findIdx?_go_some_imp_mem p l 0 i h

/-- A `findIdx?` over members of a list fails when the probed identifier is
absent from the identifier projection. -/
lemma findIdx?_eq_none_of_not_mem_ids (needs : List Cue) (cid : String)
    (h : cid ∉ needs.map (fun c => c.originalId)) :
    needs.findIdx? (fun n => n.originalId == cid) = none := by
  cases hf : needs.findIdx? (fun n => n.originalId == cid) with
  | none => rfl
  | some i =>
    obtain ⟨n, hn, hp⟩ := findIdx?_some_imp_mem _ needs i hf
    exact absurd (List.mem_map.mpr ⟨n, hn, eq_of_beq hp⟩) h

/-- Members of the needs-partition come from the batch. -/
lemma partitionMemory_needs_subset (g t : List (String × String)) :
    ∀ (l : List Cue), (partitionMemory g t l).2 ⊆ l := by
  intro l
  induction l with
  | nil => intro c hc; simp [partitionMemory] at hc
  | cons x xs ih =>
    intro c hc
    simp only [partitionMemory] at hc
    cases hl : lookupMemory g t x.originalText with
    | some tx => rw [hl] at hc; exact List.mem_cons_of_mem x (ih hc)
    | none =>
      rw [hl] at hc
      rcases List.mem_cons.mp hc with rfl | hc2
      · exact List.mem_cons_self _ _
      · exact List.mem_cons_of_mem x (ih hc2)

/-- Cues in the needs-partition are memory misses. -/
lemma partitionMemory_needs_lookup (g t : List (String × String)) :
    ∀ (l : List Cue) (c : Cue), c ∈ (partitionMemory g t l).2 →
      lookupMemory g t c.originalText = none := by
  intro l
  induction l with
  | nil => intro c hc; simp [partitionMemory] at hc
  | cons x xs ih =>
    intro c hc
    simp only [partitionMemory] at hc
    cases hl : lookupMemory g t x.originalText with
    | some tx => rw [hl] at hc; exact ih c hc
    | none =>
      rw [hl] at hc
      rcases List.mem_cons.mp hc with rfl | hc2
      · exact hl
      · exact ih c hc2

/-- A memory-hit cue of the batch lands in the hits-partition with its hit
text. -/
lemma partitionMemory_hits_of_lookup (g t : List (String × String)) :
    ∀ (l : List Cue) (c : Cue) (tx : String), c ∈ l →
      lookupMemory g t c.originalText = some tx →
      (c.originalId, tx) ∈ (partitionMemory g t l).1 := by
  intro l
  induction l with
  | nil => intro c tx hc _; cases hc
  | cons x xs ih =>
    intro c tx hc hl
    simp only [partitionMemory]
    rcases List.mem_cons.mp hc with rfl | hc2
    · rw [hl]; exact List.mem_cons_self _ _
    · cases hlx : lookupMemory g t x.originalText with
      | some tx2 => exact List.mem_cons_of_mem _ (ih c tx hc2 hl)
      | none => exact ih c tx hc2 hl

/-- A batch cue is the first cue of its file with its identifier. -/
lemma tickBatchCues_find (s : AppSettings) (st : EngineState)
    (file : SubtitleFile) (c : Cue) (hc : c ∈ tickBatchCues s st file) :
    file.cues.find? (fun x => x.originalId == c.originalId) = some c := by
  simp only [tickBatchCues] at hc
  obtain ⟨id, _, hfind⟩ := List.mem_filterMap.mp hc
  have hp := List.find?_some hfind
  have hid : c.originalId = id := eq_of_beq hp
  rw [← hid] at hfind
  exact hfind

/-- Two batch cues carrying the same identifier are the same cue. -/
lemma tickBatchCues_eq_of_id (s : AppSettings) (st : EngineState)
    (file : SubtitleFile) (c c2 : Cue) (hc : c ∈ tickBatchCues s st file)
    (hc2 : c2 ∈ tickBatchCues s st file) (hid : c2.originalId = c.originalId) :
    c2 = c := by
  have h1 := tickBatchCues_find s st file c hc
  have h2 := tickBatchCues_find s st file c2 hc2
  rw [hid] at h2
  rw [h1] at h2
  exact (Option.some_injective _ h2).symm

/-- A memory-hit batch cue's identifier is never among the identifiers
needing translation. -/
lemma hit_id_not_in_needs (s : AppSettings) (st : EngineState)
    (file : SubtitleFile) (c : Cue) (tx : String)
    (hc : c ∈ tickBatchCues s st file)
    (hhit : lookupMemory s.glossary st.tm c.originalText = some tx) :
    c.originalId ∉ (tickParts s st file).2.map (fun c => c.originalId) := by
  intro hmem
  obtain ⟨c2, hc2, hid⟩ := List.mem_map.mp hmem
  have hc2b : c2 ∈ tickBatchCues s st file :=
    partitionMemory_needs_subset _ _ _ hc2
  have : c2 = c := tickBatchCues_eq_of_id s st file c c2 hc hc2b hid
  subst this
  have := partitionMemory_needs_lookup _ _ _ c2 hc2
  rw [this] at hhit
  cases hhit

/-- `applyHits` completes every cue whose identifier carries a hit. -/
lemma applyHits_completes (hits : List (String × String)) (cid tx : String)
    (hmem : (cid, tx) ∈ hits) (f : SubtitleFile) :
    ∀ y ∈ (applyHits hits f).cues, y.originalId = cid →
      y.status = CueStatus.completed ∧
      y.translationSource = some TranslationSource.tm := by
  intro y hy hid
  simp only [applyHits] at hy
  obtain ⟨x, _, hxy⟩ := List.mem_map.mp hy
  cases hf : hits.find? (fun h => h.1 == x.originalId) with
  | some h2 => rw [hf] at hxy; rw [← hxy]; exact ⟨rfl, rfl⟩
  | none =>
    rw [hf] at hxy
    subst hxy
    have hnone := List.find?_eq_none.mp hf (cid, tx) hmem
    rw [hid] at hnone
    simp at hnone

/-- `markTranslating` preserves the completed/tm shape of cues whose
identifier is not marked. -/
lemma markTranslating_pres (needsIds : List String) (cid : String)
    (hnid : cid ∉ needsIds) (f : SubtitleFile)
    (hf : ∀ y ∈ f.cues, y.originalId = cid →
      y.status = CueStatus.completed ∧ y.translationSource = some TranslationSource.tm) :
    ∀ y ∈ (markTranslating needsIds f).cues, y.originalId = cid →
      y.status = CueStatus.completed ∧
      y.translationSource = some TranslationSource.tm := by
  intro y hy hid
  simp only [markTranslating] at hy
  obtain ⟨x, hx, hxy⟩ := List.mem_map.mp hy
  cases hcont : needsIds.contains x.originalId with
  | true =>
    rw [hcont] at hxy
    simp only [if_true] at hxy
    have : x.originalId = cid := by rw [← hxy] at hid; exact hid
    rw [this] at hcont
    exact absurd (List.mem_of_elem_eq_true hcont) hnid
  | false =>
    rw [hcont] at hxy
    simp only [Bool.false_eq_true, if_false] at hxy
    subst hxy
    exact hf x hx hid

/-- `applySuccess` preserves cues whose identifier is not being
translated. -/
lemma applySuccess_pres (needs : List Cue) (results : List String) (cid : String)
    (hnid : cid ∉ needs.map (fun c => c.originalId)) (f : SubtitleFile)
    (hf : ∀ y ∈ f.cues, y.originalId = cid →
      y.status = CueStatus.completed ∧ y.translationSource = some TranslationSource.tm) :
    ∀ y ∈ (applySuccess needs results f).cues, y.originalId = cid →
      y.status = CueStatus.completed ∧
      y.translationSource = some TranslationSource.tm := by
  intro y hy hid
  simp only [applySuccess] at hy
  obtain ⟨x, hx, hxy⟩ := List.mem_map.mp hy
  cases hfi : needs.findIdx? (fun n => n.originalId == x.originalId) with
  | some idx =>
    rw [hfi] at hxy
    have hxid : x.originalId = cid := by rw [← hxy] at hid; exact hid
    rw [hxid] at hfi
    rw [findIdx?_eq_none_of_not_mem_ids needs cid hnid] at hfi
    cases hfi
  | none =>
    rw [hfi] at hxy
    subst hxy
    exact hf x hx hid

/-- `applyElse` preserves cues whose identifier is not in the failed
batch. -/
lemma applyElse_pres (needsIds : List String) (err : ErrorAction) (cid : String)
    (hnid : cid ∉ needsIds) (f : SubtitleFile)
    (hf : ∀ y ∈ f.cues, y.originalId = cid →
      y.status = CueStatus.completed ∧ y.translationSource = some TranslationSource.tm) :
    ∀ y ∈ (applyElse needsIds err f).cues, y.originalId = cid →
      y.status = CueStatus.completed ∧
      y.translationSource = some TranslationSource.tm := by
  intro y hy hid
  simp only [applyElse] at hy
  obtain ⟨x, hx, hxy⟩ := List.mem_map.mp hy
  cases hcont : needsIds.contains x.originalId with
  | true =>
    rw [hcont] at hxy
    simp only [if_true] at hxy
    have : x.originalId = cid := by rw [← hxy] at hid; exact hid
    rw [this] at hcont
    exact absurd (List.mem_of_elem_eq_true hcont) hnid
  | false =>
    rw [hcont] at hxy
    simp only [Bool.false_eq_true, if_false] at hxy
    subst hxy
    exact hf x hx hid

/-- `applyElse` marks every cue of the failed batch `error` with the
classification's `message: detail`. -/
lemma applyElse_updates (needsIds : List String) (err : ErrorAction)
    (f : SubtitleFile) :
    ∀ y ∈ (applyElse needsIds err f).cues, y.originalId ∈ needsIds →
      y.status = CueStatus.error ∧
      y.errorMessage = some (err.message ++ ": " ++ err.detail.getD "") := by
  intro y hy hid
  simp only [applyElse] at hy
  obtain ⟨x, _, hxy⟩ := List.mem_map.mp hy
  cases hcont : needsIds.contains x.originalId with
  | true =>
    rw [hcont] at hxy
    simp only [if_true] at hxy
    rw [← hxy]
    exact ⟨rfl, rfl⟩
  | false =>
    rw [hcont] at hxy
    simp only [Bool.false_eq_true, if_false] at hxy
    subst hxy
    exact absurd hid ((contains_eq_false_iff needsIds x.originalId).mp hcont)

/-- Property transfer through `mapFile`: if every file carrying the target
id satisfies `A`, and `g` turns `A` into `B` on such files, every file of
the mapped collection carrying the id satisfies `B`. -/
lemma mapFile_pres (fid : String) (g : SubtitleFile → SubtitleFile)
    (files : List SubtitleFile) (A B : SubtitleFile → Prop)
    (h1 : ∀ f ∈ files, f.id = fid → A f)
    (h2 : ∀ f, f.id = fid → A f → B (g f)) :
    ∀ f' ∈ mapFile fid g files, f'.id = fid → B f' := by
  intro f' hf' hid
  simp only [mapFile] at hf'
  obtain ⟨f, hf, hff⟩ := List.mem_map.mp hf'
  cases h : (f.id == fid) with
  | true =>
    rw [h] at hff
    simp only [if_true] at hff
    subst hff
    exact h2 f (eq_of_beq h) (h1 f hf (eq_of_beq h))
  | false =>
    rw [h] at hff
    simp only [Bool.false_eq_true, if_false] at hff
    subst hff
    rw [hid] at h
    simp at h

end TS
namespace TS

/-- Reduction of a tick that is fully satisfied from memory: guards pass,
the file resolves, there are hits and nothing needs translation. -/
lemma processNext_run_memOnly (s : AppSettings) (rnd : Nat)
    (task : String → TaskOutcome ResVal) (st : EngineState) (file : SubtitleFile)
    (hproc : st.processing = true) (hq : st.queue.isEmpty = false)
    (hkeys : s.apiKeys.isEmpty = false)
    (hfile : fileOf st.files (st.queue.headD "") = some file)
    (hhe : (tickParts s st file).1.isEmpty = false)
    (hne : (tickParts s st file).2.isEmpty = true) :
    processNext s rnd task st =
      ⟨mapFile file.id (applyHits (tickParts s st file).1) st.files,
       st.queue.filter
         (fun id => !(((tickParts s st file).1.map (fun h => h.1)).contains id)),
       st.tm, st.keyIndex, st.processing, .memOnly 50, none⟩ := by
  have hguard : (!st.processing || st.queue.isEmpty) = false := by
    rw [hproc, hq]; rfl
  simp only [processNext, hguard, hkeys, hfile, hhe, hne,
    Bool.false_eq_true, if_false, ite_true, ite_false]

/-- Reduction of a tick that reaches the API phase after applying some
memory hits. -/
lemma processNext_run_api (s : AppSettings) (rnd : Nat)
    (task : String → TaskOutcome ResVal) (st : EngineState) (file : SubtitleFile)
    (hproc : st.processing = true) (hq : st.queue.isEmpty = false)
    (hkeys : s.apiKeys.isEmpty = false)
    (hfile : fileOf st.files (st.queue.headD "") = some file)
    (hhe : (tickParts s st file).1.isEmpty = false)
    (hne : (tickParts s st file).2.isEmpty = false) :
    processNext s rnd task st =
      tickApiPhase s rnd task file (tickParts s st file).2
        (mapFile file.id (applyHits (tickParts s st file).1) st.files)
        (st.queue.filter
          (fun id => !(((tickParts s st file).1.map (fun h => h.1)).contains id)))
        st := by
  have hguard : (!st.processing || st.queue.isEmpty) = false := by
    rw [hproc, hq]; rfl
  simp only [processNext, hguard, hkeys, hfile, hhe, hne,
    Bool.false_eq_true, if_false, ite_true, ite_false]

/-- Reduction of a tick that reaches the API phase with no memory hits at
all: the source skips the hit application and queue filtering. -/
lemma processNext_run_api_nohits (s : AppSettings) (rnd : Nat)
    (task : String → TaskOutcome ResVal) (st : EngineState) (file : SubtitleFile)
    (hproc : st.processing = true) (hq : st.queue.isEmpty = false)
    (hkeys : s.apiKeys.isEmpty = false)
    (hfile : fileOf st.files (st.queue.headD "") = some file)
    (hhe : (tickParts s st file).1.isEmpty = true) :
    processNext s rnd task st =
      tickApiPhase s rnd task file (tickParts s st file).2 st.files st.queue st := by
  have hguard : (!st.processing || st.queue.isEmpty) = false := by
    rw [hproc, hq]; rfl
  simp only [processNext, hguard, hkeys, hfile, hhe,
    Bool.false_eq_true, if_false, ite_true, ite_false]

end TS

namespace TS

/-- Reduction of the API phase when the rotator throws (a crash of the
tick promise). -/
lemma tickApiPhase_crashed (s : AppSettings) (rnd : Nat)
    (task : String → TaskOutcome ResVal) (file : SubtitleFile) (needs : List Cue)
    (files1 : List SubtitleFile) (queue1 : List String) (st : EngineState)
    (u : Unit)
    (hrot : executeWithRotation s.apiKeys s.keySelectionStrategy rnd st.keyIndex task =
      Except.error u) :
    tickApiPhase s rnd task file needs files1 queue1 st =
      ⟨mapFile file.id (markTranslating (needs.map (fun c => c.originalId))) files1,
       queue1, st.tm, st.keyIndex, st.processing, .crashed,
       some (needs.map (fun c => c.originalId))⟩ := by
  simp only [tickApiPhase, hrot]

/-- Reduction of the API phase on rotator success. -/
lemma tickApiPhase_success (s : AppSettings) (rnd : Nat)
    (task : String → TaskOutcome ResVal) (file : SubtitleFile) (needs : List Cue)
    (files1 : List SubtitleFile) (queue1 : List String) (st : EngineState)
    (rot : RotReturn ResVal) (r : ResVal)
    (hrot : executeWithRotation s.apiKeys s.keySelectionStrategy rnd st.keyIndex task =
      Except.ok rot)
    (hres : rot.res = ExecResult.ok r) :
    tickApiPhase s rnd task file needs files1 queue1 st =
      ⟨mapFile file.id (applySuccess needs (resultsArrayOf r))
         (mapFile file.id (markTranslating (needs.map (fun c => c.originalId))) files1),
       queue1.filter (fun id => !((needs.map (fun c => c.originalId)).contains id)),
       tmAfterSuccess st.tm file.cues needs (resultsArrayOf r),
       rot.newKeyIndex, st.processing, .apiSuccess s.delayBetweenRequests,
       some (needs.map (fun c => c.originalId))⟩ := by
  simp only [tickApiPhase, hrot, hres]

/-- Reduction of the API phase on a `wait_quota` failure. -/
lemma tickApiPhase_quota (s : AppSettings) (rnd : Nat)
    (task : String → TaskOutcome ResVal) (file : SubtitleFile) (needs : List Cue)
    (files1 : List SubtitleFile) (queue1 : List String) (st : EngineState)
    (rot : RotReturn ResVal) (err : ErrorAction)
    (hrot : executeWithRotation s.apiKeys s.keySelectionStrategy rnd st.keyIndex task =
      Except.ok rot)
    (hres : rot.res = ExecResult.fail err)
    (hact : err.action = ErrAct.wait_quota) :
    tickApiPhase s rnd task file needs files1 queue1 st =
      ⟨mapFile file.id (markTranslating (needs.map (fun c => c.originalId))) files1,
       queue1, st.tm, rot.newKeyIndex, st.processing, .quotaWait 60,
       some (needs.map (fun c => c.originalId))⟩ := by
  simp only [tickApiPhase, hrot, hres, hact]

/-- Reduction of the API phase on a `stop` failure. -/
lemma tickApiPhase_stopped (s : AppSettings) (rnd : Nat)
    (task : String → TaskOutcome ResVal) (file : SubtitleFile) (needs : List Cue)
    (files1 : List SubtitleFile) (queue1 : List String) (st : EngineState)
    (rot : RotReturn ResVal) (err : ErrorAction)
    (hrot : executeWithRotation s.apiKeys s.keySelectionStrategy rnd st.keyIndex task =
      Except.ok rot)
    (hres : rot.res = ExecResult.fail err)
    (hact : err.action = ErrAct.stop) :
    tickApiPhase s rnd task file needs files1 queue1 st =
      ⟨mapFile file.id (markTranslating (needs.map (fun c => c.originalId))) files1,
       queue1, st.tm, rot.newKeyIndex, false, .halted err.message,
       some (needs.map (fun c => c.originalId))⟩ := by
  simp only [tickApiPhase, hrot, hres, hact]

/-- Reduction of the API phase on any other failure (`retry`/`skip`): the
batch is marked `error` and removed, and the next tick is scheduled after
a fixed 1000 ms. -/
lemma tickApiPhase_else (s : AppSettings) (rnd : Nat)
    (task : String → TaskOutcome ResVal) (file : SubtitleFile) (needs : List Cue)
    (files1 : List SubtitleFile) (queue1 : List String) (st : EngineState)
    (rot : RotReturn ResVal) (err : ErrorAction)
    (hrot : executeWithRotation s.apiKeys s.keySelectionStrategy rnd st.keyIndex task =
      Except.ok rot)
    (hres : rot.res = ExecResult.fail err)
    (h1 : err.action ≠ ErrAct.wait_quota) (h2 : err.action ≠ ErrAct.stop) :
    tickApiPhase s rnd task file needs files1 queue1 st =
      ⟨mapFile file.id (applyElse (needs.map (fun c => c.originalId)) err)
         (mapFile file.id (markTranslating (needs.map (fun c => c.originalId))) files1),
       queue1.filter (fun id => !((needs.map (fun c => c.originalId)).contains id)),
       st.tm, rot.newKeyIndex, st.processing, .batchError 1000,
       some (needs.map (fun c => c.originalId))⟩ := by
  cases hact : err.action with
  | wait_quota => exact absurd hact h1
  | stop => exact absurd hact h2
  | retry => simp only [tickApiPhase, hrot, hres, hact]
  | skip => simp only [tickApiPhase, hrot, hres, hact]

/-- Core tick property: a batch cue satisfied by the memory probe is never
part of the identifiers sent to the backend, its identifier leaves the
queue, and every cue carrying its identifier in a file with the batch
file's id ends the tick completed with provenance `tm` — whatever the
backend task does. -/
lemma tick_memoryHit
    (s : AppSettings) (rnd : Nat) (task : String → TaskOutcome ResVal)
    (st : EngineState) (file : SubtitleFile) (c : Cue) (tx : String)
    (hproc : st.processing = true) (hq : st.queue.isEmpty = false)
    (hkeys : s.apiKeys.isEmpty = false)
    (hfile : fileOf st.files (st.queue.headD "") = some file)
    (hc : c ∈ tickBatchCues s st file)
    (hhit : lookupMemory s.glossary st.tm c.originalText = some tx) :
    (∀ ids, (processNext s rnd task st).calledIds = some ids → c.originalId ∉ ids) ∧
    c.originalId ∉ (processNext s rnd task st).queue ∧
    (∀ f' ∈ (processNext s rnd task st).files, f'.id = file.id →
      ∀ y ∈ f'.cues, y.originalId = c.originalId →
        y.status = CueStatus.completed ∧
        y.translationSource = some TranslationSource.tm) := by
  have hhits : (c.originalId, tx) ∈ (tickParts s st file).1 := by
    simp only [tickParts]
    exact partitionMemory_hits_of_lookup _ _ _ c tx hc hhit
  have hnid : c.originalId ∉ (tickParts s st file).2.map (fun c => c.originalId) :=
    hit_id_not_in_needs s st file c tx hc hhit
  have hhe : (tickParts s st file).1.isEmpty = false := by
    cases h : (tickParts s st file).1 with
    | nil => rw [h] at hhits; cases hhits
    | cons a l => rfl
  have hq1 : c.originalId ∉ st.queue.filter
      (fun id => !(((tickParts s st file).1.map (fun h => h.1)).contains id)) := by
    intro hmem
    have hpred := (List.mem_filter.mp hmem).2
    have hcont : ((tickParts s st file).1.map (fun h => h.1)).contains c.originalId = true :=
      List.elem_eq_true_of_mem (List.mem_map.mpr ⟨(c.originalId, tx), hhits, rfl⟩)
    rw [hcont] at hpred
    cases hpred
  have hq2 : c.originalId ∉
      (st.queue.filter
        (fun id => !(((tickParts s st file).1.map (fun h => h.1)).contains id))).filter
        (fun id => !(((tickParts s st file).2.map (fun c => c.originalId)).contains id)) := by
    intro hmem
    exact hq1 (List.mem_filter.mp hmem).1
  have hfiles1 : ∀ f' ∈ mapFile file.id (applyHits (tickParts s st file).1) st.files,
      f'.id = file.id → ∀ y ∈ f'.cues, y.originalId = c.originalId →
        y.status = CueStatus.completed ∧
        y.translationSource = some TranslationSource.tm :=
    mapFile_pres file.id _ st.files (fun _ => True) _ (fun _ _ _ => trivial)
      (fun f _ _ => applyHits_completes _ c.originalId tx hhits f)
  have hfiles2 : ∀ f' ∈ mapFile file.id
      (markTranslating ((tickParts s st file).2.map (fun c => c.originalId)))
      (mapFile file.id (applyHits (tickParts s st file).1) st.files),
      f'.id = file.id → ∀ y ∈ f'.cues, y.originalId = c.originalId →
        y.status = CueStatus.completed ∧
        y.translationSource = some TranslationSource.tm :=
    mapFile_pres file.id _ _ _ _ hfiles1
      (fun f _ hPf => markTranslating_pres _ _ hnid f hPf)
  by_cases hne : (tickParts s st file).2.isEmpty = true
  · rw [processNext_run_memOnly s rnd task st file hproc hq hkeys hfile hhe hne]
    refine ⟨?_, hq1, hfiles1⟩
    intro ids h
    exact absurd h (by intro h2; cases h2)
  · have hne2 : (tickParts s st file).2.isEmpty = false := by
      cases h : (tickParts s st file).2.isEmpty with
      | false => rfl
      | true => exact absurd h hne
    rw [processNext_run_api s rnd task st file hproc hq hkeys hfile hhe hne2]
    cases hr : executeWithRotation s.apiKeys s.keySelectionStrategy rnd st.keyIndex task with
    | error u =>
      rw [tickApiPhase_crashed s rnd task file _ _ _ st u hr]
      refine ⟨?_, hq1, hfiles2⟩
      intro ids h
      injection h with h3
      rw [← h3]
      exact hnid
    | ok rot =>
      cases hres : rot.res with
      | ok r =>
        rw [tickApiPhase_success s rnd task file _ _ _ st rot r hr hres]
        refine ⟨?_, hq2, ?_⟩
        · intro ids h
          injection h with h3
          rw [← h3]
          exact hnid
        · exact mapFile_pres file.id _ _ _ _ hfiles2
            (fun f _ hPf => applySuccess_pres _ _ _ hnid f hPf)
      | fail err =>
        cases hact : err.action with
        | wait_quota =>
          rw [tickApiPhase_quota s rnd task file _ _ _ st rot err hr hres hact]
          refine ⟨?_, hq1, hfiles2⟩
          intro ids h
          injection h with h3
          rw [← h3]
          exact hnid
        | stop =>
          rw [tickApiPhase_stopped s rnd task file _ _ _ st rot err hr hres hact]
          refine ⟨?_, hq1, hfiles2⟩
          intro ids h
          injection h with h3
          rw [← h3]
          exact hnid
        | retry =>
          rw [tickApiPhase_else s rnd task file _ _ _ st rot err hr hres
            (by rw [hact]; intro h; cases h) (by rw [hact]; intro h; cases h)]
          refine ⟨?_, hq2, ?_⟩
          · intro ids h
            injection h with h3
            rw [← h3]
            exact hnid
          · exact mapFile_pres file.id _ _ _ _ hfiles2
              (fun f _ hPf => applyElse_pres _ _ _ hnid f hPf)
        | skip =>
          rw [tickApiPhase_else s rnd task file _ _ _ st rot err hr hres
            (by rw [hact]; intro h; cases h) (by rw [hact]; intro h; cases h)]
          refine ⟨?_, hq2, ?_⟩
          · intro ids h
            injection h with h3
            rw [← h3]
            exact hnid
          · exact mapFile_pres file.id _ _ _ _ hfiles2
              (fun f _ hPf => applyElse_pres _ _ _ hnid f hPf)

end TS
namespace TS

/-! ## Claim C5 — failure handling for non-quota, non-stop errors -/

/-- Network-style failure value thrown by the witness backend task. -/
def netErrVal : JVal := JVal.vobj [("message", JVal.vstr "network down")]

/-- Its classification: server/network retry with a 3000 ms delay. -/
def netAction : ErrorAction :=
  ⟨.retry, "☁️ Sunucu/Ağ Hatası",
    some "Google sunucularına veya internete erişilemiyor. Tekrar deneniyor.", 3000⟩

/-- Backend task that always throws the network failure. -/
def netTask : String → TaskOutcome ResVal := fun _ => TaskOutcome.err netErrVal

/-- Rotator outcome for `netTask` over the single-key pool. -/
def netRot : RotReturn ResVal := ⟨ExecResult.fail netAction, 0, ["k"]⟩

/-- Engine state for the failure scenarios: one pending cue `a` queued. -/
def sampleState5 : EngineState := ⟨[sampleFileAC], ["a"], [], 0, true⟩

/-- C5 counterexample: a tick failing with a server/network classification
(suggested delay 3000 ms) schedules the next tick after the fixed 1000 ms
of the source, not after the classification's delay. -/
theorem batch_failure_fixed_delay :
    (processNext sampleSettings 0 netTask sampleState5).effect =
      TickEffect.batchError 1000 ∧
    analyzeError netErrVal = Except.ok netAction ∧
    netAction.delay = 3000 ∧ (1000 : Nat) ≠ 3000 :=
  ⟨rfl, rfl, rfl, by decide⟩

/-- C5 amended: when the tick's backend call fails with any classification
other than `wait_quota` or `stop`, the engine marks every cue of the batch
`error` carrying `message: detail` of the classification, removes all their
identifiers from the queue, and schedules the next tick after a fixed
1000 ms delay (not the classification's suggested delay). -/
theorem batch_failure_else
    (s : AppSettings) (rnd : Nat) (task : String → TaskOutcome ResVal)
    (st : EngineState) (file : SubtitleFile) (rot : RotReturn ResVal)
    (err : ErrorAction)
    (hproc : st.processing = true) (hq : st.queue.isEmpty = false)
    (hkeys : s.apiKeys.isEmpty = false)
    (hfile : fileOf st.files (st.queue.headD "") = some file)
    (hneeds : (tickParts s st file).2.isEmpty = false)
    (hrot : executeWithRotation s.apiKeys s.keySelectionStrategy rnd st.keyIndex task =
      Except.ok rot)
    (hres : rot.res = ExecResult.fail err)
    (h1 : err.action ≠ ErrAct.wait_quota) (h2 : err.action ≠ ErrAct.stop) :
    (processNext s rnd task st).effect = TickEffect.batchError 1000 ∧
    (∀ id, id ∈ (tickParts s st file).2.map (fun c => c.originalId) →
      id ∉ (processNext s rnd task st).queue) ∧
    (∀ f' ∈ (processNext s rnd task st).files, f'.id = file.id →
      ∀ y ∈ f'.cues, y.originalId ∈ (tickParts s st file).2.map (fun c => c.originalId) →
        y.status = CueStatus.error ∧
        y.errorMessage = some (err.message ++ ": " ++ err.detail.getD "")) := by
  by_cases hhe : (tickParts s st file).1.isEmpty = true
  · rw [processNext_run_api_nohits s rnd task st file hproc hq hkeys hfile hhe,
      tickApiPhase_else s rnd task file _ _ _ st rot err hrot hres h1 h2]
    refine ⟨rfl, ?_, ?_⟩
    · intro id hid hmem
      have hpred := (List.mem_filter.mp hmem).2
      have hcont : ((tickParts s st file).2.map (fun c => c.originalId)).contains id = true :=
        List.elem_eq_true_of_mem hid
      rw [hcont] at hpred
      cases hpred
    · exact mapFile_pres file.id _ _ (fun _ => True) _ (fun _ _ _ => trivial)
        (fun f _ _ => applyElse_updates _ err f)
  · have hhe2 : (tickParts s st file).1.isEmpty = false := by
      cases h : (tickParts s st file).1.isEmpty with
      | false => rfl
      | true => exact absurd h hhe
    rw [processNext_run_api s rnd task st file hproc hq hkeys hfile hhe2 hneeds,
      tickApiPhase_else s rnd task file _ _ _ st rot err hrot hres h1 h2]
    refine ⟨rfl, ?_, ?_⟩
    · intro id hid hmem
      have hpred := (List.mem_filter.mp hmem).2
      have hcont : ((tickParts s st file).2.map (fun c => c.originalId)).contains id = true :=
        List.elem_eq_true_of_mem hid
      rw [hcont] at hpred
      cases hpred
    · exact mapFile_pres file.id _ _ (fun _ => True) _ (fun _ _ _ => trivial)
        (fun f _ _ => applyElse_updates _ err f)

end TS
namespace TS

/-- C5 witness: the amended failure behavior at the concrete network-error
scenario — effect is the fixed 1000 ms reschedule and the failed cue `a`
leaves the queue. -/
theorem batch_failure_else_witness :
    netRot.res = ExecResult.fail netAction ∧
    netAction.action ≠ ErrAct.wait_quota ∧ netAction.action ≠ ErrAct.stop ∧
    (processNext sampleSettings 0 netTask sampleState5).effect =
      TickEffect.batchError 1000 ∧
    "a" ∉ (processNext sampleSettings 0 netTask sampleState5).queue := by
  have H := batch_failure_else sampleSettings 0 netTask sampleState5 sampleFileAC
    netRot netAction rfl rfl rfl rfl rfl rfl rfl (by decide) (by decide)
  exact ⟨rfl, by decide, by decide, H.1, H.2.1 "a" (by decide)⟩

/-! ## Claim C6 — memory hits bypass the backend -/

/-- C6 counterexample: a glossary entry whose value is the empty string is
falsy, so the `||` chain falls through: the cue whose trimmed text matches
the glossary key is still sent to the backend. -/
theorem glossary_empty_value_not_hit :
    ([("zzz", "")] : List (String × String)).lookup "zzz" = some "" ∧
    (processNext ⟨["k"], .sequential, 5000, 3, 1, [("zzz", "")], "", 2⟩ 0
      (fun _ => TaskOutcome.ok (ResVal.single "x"))
      ⟨[sampleFileAC], ["a"], [], 0, true⟩).calledIds = some ["a"] :=
  ⟨rfl, rfl⟩

/-- C6 amended: a batch cue whose memory probe succeeds — a non-empty
glossary value for its trimmed text, else a non-empty Translation Memory
value for its trimmed lower-cased text, else a static-cache hit — is never
among the identifiers sent to the backend, leaves the queue, and ends the
tick completed with provenance `tm`; non-empty glossary values take
precedence over non-empty TM values, which take precedence over the
cache.  (An empty-string glossary or TM value is falsy in the source's
`||` chain and is not a hit.) -/
theorem memory_hit_no_backend_call
    (s : AppSettings) (rnd : Nat) (task : String → TaskOutcome ResVal)
    (st : EngineState) (file : SubtitleFile) (c : Cue) (tx : String)
    (hproc : st.processing = true) (hq : st.queue.isEmpty = false)
    (hkeys : s.apiKeys.isEmpty = false)
    (hfile : fileOf st.files (st.queue.headD "") = some file)
    (hc : c ∈ tickBatchCues s st file)
    (hhit : lookupMemory s.glossary st.tm c.originalText = some tx) :
    ((∀ ids, (processNext s rnd task st).calledIds = some ids → c.originalId ∉ ids) ∧
     c.originalId ∉ (processNext s rnd task st).queue ∧
     (∀ f' ∈ (processNext s rnd task st).files, f'.id = file.id →
       ∀ y ∈ f'.cues, y.originalId = c.originalId →
         y.status = CueStatus.completed ∧
         y.translationSource = some TranslationSource.tm)) ∧
    (∀ g, s.glossary.lookup (jsTrim c.originalText) = some g → g ≠ "" → tx = g) ∧
    ((∀ g, s.glossary.lookup (jsTrim c.originalText) = some g → g = "") →
      ∀ v, st.tm.lookup (jsToLower (jsTrim c.originalText)) = some v → v ≠ "" →
        tx = v) := by
  refine ⟨tick_memoryHit s rnd task st file c tx hproc hq hkeys hfile hc hhit, ?_, ?_⟩
  · intro g hg hgne
    have hbe : (g == "") = false := by
      cases h : (g == "") with
      | false => rfl
      | true => exact absurd (eq_of_beq h) hgne
    simp only [lookupMemory, orTruthy, hg, hbe, Bool.false_eq_true, if_false] at hhit
    injection hhit with h2
    exact h2.symm
  · intro hge v hv hvne
    have hbe : (v == "") = false := by
      cases h : (v == "") with
      | false => rfl
      | true => exact absurd (eq_of_beq h) hvne
    cases hgl : s.glossary.lookup (jsTrim c.originalText) with
    | none =>
      simp only [lookupMemory, orTruthy, hgl, hv, hbe, Bool.false_eq_true, if_false] at hhit
      injection hhit with h2
      exact h2.symm
    | some g =>
      have hge2 : g = "" := hge g hgl
      subst hge2
      simp only [lookupMemory, orTruthy, hgl, hv, hbe, Bool.false_eq_true, if_false,
        if_true] at hhit
      injection hhit with h2
      exact h2.symm

/-- C6 witness: a TM-satisfied cue at a concrete state — its identifier
leaves the queue without a backend call. -/
theorem memory_hit_no_backend_call_witness :
    lookupMemory sampleSettings.glossary [("zzz", "Çeviri")] "zzz" = some "Çeviri" ∧
    "a" ∉ (processNext sampleSettings 0 (fun _ => TaskOutcome.ok (ResVal.single "x"))
      ⟨[sampleFileAC], ["a"], [("zzz", "Çeviri")], 0, true⟩).queue := by
  have H := memory_hit_no_backend_call sampleSettings 0
    (fun _ => TaskOutcome.ok (ResVal.single "x"))
    ⟨[sampleFileAC], ["a"], [("zzz", "Çeviri")], 0, true⟩ sampleFileAC
    (sampleCue "a" "zzz" .pending) "Çeviri" rfl rfl rfl rfl (by decide) rfl
  exact ⟨rfl, H.1.2.1⟩

end TS
namespace TS

/-! ## Claim C7 — Translation Memory round trip -/

/-- One step of the TM upsert fold. -/
lemma tmAfterSuccess_cons (tm : List (String × String)) (x : Cue) (xs : List Cue)
    (needs : List Cue) (results : List String) :
    tmAfterSuccess tm (x :: xs) needs results =
      tmAfterSuccess
        (match needs.findIdx? (fun n => n.originalId == x.originalId) with
         | some idx =>
            tmSet tm (jsToLower (jsTrim x.originalText)) ((results.get? idx).getD "")
         | none => tm) xs needs results := rfl

/-- `tmSet` preserves key presence. -/
lemma lookup_tmSet_isSome (tm : List (String × String)) (k v key : String)
    (h : ∃ w, tm.lookup key = some w) :
    ∃ w, (tmSet tm k v).lookup key = some w := by
  obtain ⟨w, hw⟩ := h
  cases hk : (key == k) with
  | true => exact ⟨v, by simp [tmSet, List.lookup, hk]⟩
  | false => exact ⟨w, by simp [tmSet, List.lookup, hk, hw]⟩

/-- The TM upsert fold preserves key presence. -/
lemma tmAfterSuccess_isSome (needs : List Cue) (results : List String) (key : String) :
    ∀ (l : List Cue) (tm : List (String × String)),
      (∃ w, tm.lookup key = some w) →
      ∃ w, (tmAfterSuccess tm l needs results).lookup key = some w := by
  intro l
  induction l with
  | nil => intro tm h; exact h
  | cons x xs ih =>
    intro tm h
    rw [tmAfterSuccess_cons]
    apply ih
    cases hfi : needs.findIdx? (fun n => n.originalId == x.originalId) with
    | some idx => exact lookup_tmSet_isSome tm _ _ key h
    | none => exact h

/-- Every translated cue's normalized source text is present in the TM
after the success fold. -/
lemma tmAfterSuccess_hasKey (needs : List Cue) (results : List String) :
    ∀ (l : List Cue) (tm : List (String × String)) (c : Cue), c ∈ l →
      (needs.findIdx? (fun n => n.originalId == c.originalId)).isSome = true →
      ∃ w, (tmAfterSuccess tm l needs results).lookup
        (jsToLower (jsTrim c.originalText)) = some w := by
  intro l
  induction l with
  | nil => intro tm c hc _; cases hc
  | cons x xs ih =>
    intro tm c hc hidx
    rcases List.mem_cons.mp hc with rfl | hc2
    · obtain ⟨idx, hidxeq⟩ := Option.isSome_iff_exists.mp hidx
      rw [tmAfterSuccess_cons, hidxeq]
      apply tmAfterSuccess_isSome
      exact ⟨(results.get? idx).getD "", by simp [tmSet, List.lookup]⟩
    · rw [tmAfterSuccess_cons]
      exact ih _ c hc2 hidx

/-- The indexed search loop of `findIdx?` succeeds when a satisfying
member exists. -/
lemma findIdx?_go_isSome {α : Type} (p : α → Bool) :
    ∀ (l : List α) (i : Nat), (∃ x ∈ l, p x = true) →
      (List.findIdx? p l i).isSome = true := by
  intro l
  induction l with
  | nil =>
    intro i h
    obtain ⟨x, hx, _⟩ := h
    cases hx
  | cons y ys ih =>
    intro i h
    obtain ⟨x, hx, hp⟩ := h
    rw [List.findIdx?_cons]
    cases hpy : p y with
    | true => rfl
    | false =>
      rcases List.mem_cons.mp hx with rfl | hx2
      · rw [hpy] at hp; cases hp
      · simp only [Bool.false_eq_true, if_false]
        exact ih (i + 1) ⟨x, hx2, hp⟩

/-- A non-empty TM value for the normalized text makes the memory probe
succeed (a non-empty glossary value may shadow it, but the probe still
hits). -/
lemma lookupMemory_of_tm (g tm : List (String × String)) (text v : String)
    (hv : tm.lookup (jsToLower (jsTrim text)) = some v) (hvne : v ≠ "") :
    ∃ t, lookupMemory g tm text = some t := by
  have hbe : (v == "") = false := by
    cases h : (v == "") with
    | false => rfl
    | true => exact absurd (eq_of_beq h) hvne
  cases hgl : g.lookup (jsTrim text) with
  | none => exact ⟨v, by simp [lookupMemory, orTruthy, hgl, hv, hbe]⟩
  | some gv =>
    by_cases hge : gv = ""
    · subst hge
      exact ⟨v, by simp [lookupMemory, orTruthy, hgl, hv, hbe]⟩
    · have hbeg : (gv == "") = false := by
        cases h : (gv == "") with
        | false => rfl
        | true => exact absurd (eq_of_beq h) hge
      exact ⟨gv, by simp [lookupMemory, orTruthy, hgl, hbeg]⟩

/-- On a successful backend call the tick's TM is the upsert fold over the
file's cues. -/
lemma tick_success_tm
    (s : AppSettings) (rnd : Nat) (task : String → TaskOutcome ResVal)
    (st : EngineState) (file : SubtitleFile) (rot : RotReturn ResVal) (r : ResVal)
    (hproc : st.processing = true) (hq : st.queue.isEmpty = false)
    (hkeys : s.apiKeys.isEmpty = false)
    (hfile : fileOf st.files (st.queue.headD "") = some file)
    (hneeds : (tickParts s st file).2.isEmpty = false)
    (hrot : executeWithRotation s.apiKeys s.keySelectionStrategy rnd st.keyIndex task =
      Except.ok rot)
    (hres : rot.res = ExecResult.ok r) :
    (processNext s rnd task st).tm =
      tmAfterSuccess st.tm file.cues (tickParts s st file).2 (resultsArrayOf r) := by
  by_cases hhe : (tickParts s st file).1.isEmpty = true
  · rw [processNext_run_api_nohits s rnd task st file hproc hq hkeys hfile hhe,
      tickApiPhase_success s rnd task file _ _ _ st rot r hrot hres]
  · have hhe2 : (tickParts s st file).1.isEmpty = false := by
      cases h : (tickParts s st file).1.isEmpty with
      | false => rfl
      | true => exact absurd h hhe
    rw [processNext_run_api s rnd task st file hproc hq hkeys hfile hhe2 hneeds,
      tickApiPhase_success s rnd task file _ _ _ st rot r hrot hres]

/-- C7 counterexample: a backend translation equal to the empty string is
upserted into the TM but is falsy on lookup, so a subsequent tick for a cue
with the same normalized source text still issues a backend call. -/
theorem empty_translation_not_hit :
    (processNext sampleSettings 0 (fun _ => TaskOutcome.ok (ResVal.single ""))
      ⟨[sampleFileAB], ["a"], [], 0, true⟩).tm.lookup "zzz" = some "" ∧
    (processNext sampleSettings 0 (fun _ => TaskOutcome.ok (ResVal.single "x"))
      ⟨(processNext sampleSettings 0 (fun _ => TaskOutcome.ok (ResVal.single ""))
          ⟨[sampleFileAB], ["a"], [], 0, true⟩).files,
        ["b"],
        (processNext sampleSettings 0 (fun _ => TaskOutcome.ok (ResVal.single ""))
          ⟨[sampleFileAB], ["a"], [], 0, true⟩).tm,
        0, true⟩).calledIds = some ["b"] :=
  ⟨rfl, rfl⟩

/-- C7 amended: after a successful backend translation of a batch cue, the
trimmed lower-cased source text is upserted into the in-memory TM; when the
stored value is non-empty, any later tick whose batch contains a cue with
the same normalized source text (against that TM) satisfies it from memory
and does not send it to the backend.  (An empty-string result is stored but
falsy, so it does not produce a hit.) -/
theorem tm_roundtrip
    (s : AppSettings) (rnd : Nat) (task : String → TaskOutcome ResVal)
    (st : EngineState) (file : SubtitleFile) (c : Cue)
    (rot : RotReturn ResVal) (r : ResVal)
    (hproc : st.processing = true) (hq : st.queue.isEmpty = false)
    (hkeys : s.apiKeys.isEmpty = false)
    (hfile : fileOf st.files (st.queue.headD "") = some file)
    (hcneeds : c ∈ (tickParts s st file).2)
    (hrot : executeWithRotation s.apiKeys s.keySelectionStrategy rnd st.keyIndex task =
      Except.ok rot)
    (hres : rot.res = ExecResult.ok r) :
    (∃ v, (processNext s rnd task st).tm.lookup
      (jsToLower (jsTrim c.originalText)) = some v) ∧
    (∀ v, (processNext s rnd task st).tm.lookup
        (jsToLower (jsTrim c.originalText)) = some v → v ≠ "" →
      ∀ (rnd2 : Nat) (task2 : String → TaskOutcome ResVal) (st2 : EngineState)
        (file2 : SubtitleFile) (c2 : Cue),
        st2.tm = (processNext s rnd task st).tm →
        st2.processing = true → st2.queue.isEmpty = false →
        fileOf st2.files (st2.queue.headD "") = some file2 →
        c2 ∈ tickBatchCues s st2 file2 →
        jsToLower (jsTrim c2.originalText) = jsToLower (jsTrim c.originalText) →
        ∀ ids, (processNext s rnd2 task2 st2).calledIds = some ids →
          c2.originalId ∉ ids) := by
  have hneeds : (tickParts s st file).2.isEmpty = false := by
    cases h : (tickParts s st file).2 with
    | nil => rw [h] at hcneeds; cases hcneeds
    | cons a l => rfl
  have htm := tick_success_tm s rnd task st file rot r hproc hq hkeys hfile hneeds hrot hres
  have hcneeds2 : c ∈ (partitionMemory s.glossary st.tm (tickBatchCues s st file)).2 :=
    hcneeds
  have hcb : c ∈ tickBatchCues s st file :=
    partitionMemory_needs_subset _ _ _ hcneeds2
  constructor
  · rw [htm]
    apply tmAfterSuccess_hasKey
    · exact List.mem_of_find?_eq_some (tickBatchCues_find s st file c hcb)
    · exact findIdx?_go_isSome _ _ 0 ⟨c, hcneeds2, by simp⟩
  · intro v hv hvne rnd2 task2 st2 file2 c2 htm2 hp2 hq2 hf2 hc2 hkey
    have hv2 : st2.tm.lookup (jsToLower (jsTrim c2.originalText)) = some v := by
      rw [hkey, htm2]
      exact hv
    obtain ⟨t, ht⟩ := lookupMemory_of_tm s.glossary st2.tm c2.originalText v hv2 hvne
    exact (tick_memoryHit s rnd2 task2 st2 file2 c2 t hp2 hq2 hkeys hf2 hc2 ht).1

end TS
namespace TS

/-- Backend task answering the round-trip witness. -/
def tmTask : String → TaskOutcome ResVal :=
  fun _ => TaskOutcome.ok (ResVal.single "Çeviri")

/-- Rotator outcome of `tmTask` on the one-key pool. -/
def tmRot : RotReturn ResVal := ⟨ExecResult.ok (ResVal.single "Çeviri"), 0, ["k"]⟩

/-- Initial state of the round-trip witness. -/
def tmState : EngineState := ⟨[sampleFileAB], ["a"], [], 0, true⟩

/-- C7 witness: after the concrete successful tick, the normalized source
text of the translated cue is present in the Translation Memory. -/
theorem tm_roundtrip_witness :
    (sampleCue "a" "zzz" CueStatus.pending) ∈
      (tickParts sampleSettings tmState sampleFileAB).2 ∧
    executeWithRotation sampleSettings.apiKeys sampleSettings.keySelectionStrategy 0
      tmState.keyIndex tmTask = Except.ok tmRot ∧
    tmRot.res = ExecResult.ok (ResVal.single "Çeviri") ∧
    ((processNext sampleSettings 0 tmTask tmState).tm.lookup
      (jsToLower (jsTrim (sampleCue "a" "zzz" CueStatus.pending).originalText))).isSome =
      true := by
  refine ⟨by decide, rfl, rfl, ?_⟩
  obtain ⟨v, hv⟩ := (tm_roundtrip sampleSettings 0 tmTask tmState sampleFileAB
    (sampleCue "a" "zzz" CueStatus.pending) tmRot (ResVal.single "Çeviri")
    rfl rfl rfl rfl (by decide) rfl rfl).1
  rw [hv]
  rfl

/-! ## Claim C8 — totality of the error classifier -/

/-- C8 counterexample: the classifier's very first step reads
`error.status`, which throws a TypeError when the failure value is `null`
(likewise `undefined`), so `analyzeError` is not total. -/
theorem analyzeError_throws_on_null :
    analyzeError JVal.vnull = Except.error () := rfl

/-- C8 amended: on every input whose message probe yields a string (in
particular any non-null/undefined value whose probed `message` field is a
string, or one with no message-bearing field at all, where the
`JSON.stringify` fallback produces a string), `analyzeError` returns a
classification without throwing; if additionally none of the
quota/auth/safety/server patterns matches, the result is the default
`retry` with delay 1000 ms and the raw message truncated to 100
characters.  (On `null`/`undefined`, or when the probed message is a
truthy non-string, or a falsy non-string reaching the default branch's
`msg.slice`, the classifier throws.) -/
theorem analyzeError_total_on_string_msg (e : JVal) (m : String) (stv : JVal)
    (hprobe : extractMsgStatus e = Except.ok (JVal.vstr m, stv)) :
    (∃ a, analyzeError e = Except.ok a) ∧
    (matchesAnyPattern stv (jsToLower m) = false →
      analyzeError e = Except.ok ⟨ErrAct.retry,
        "❌ Hata (" ++ stv.jsToString ++ ")", some ⟨m.data.take 100⟩, 1000⟩) := by
  have hred : analyzeError e = classify stv (JVal.vstr m) := by
    unfold analyzeError
    rw [hprobe]
    rfl
  have hstep : classify stv (JVal.vstr m) =
      classifyGuards stv (jsToLower m) (JVal.vstr m) := by
    by_cases hm : m = ""
    · subst hm; rfl
    · have hbe : (m == "") = false := by
        cases h : (m == "") with
        | false => rfl
        | true => exact absurd (eq_of_beq h) hm
      simp only [classify, JVal.truthy, hbe, Bool.not_false, if_true]
      rfl
  rw [hred, hstep]
  constructor
  · unfold classifyGuards
    by_cases h1 : guardQuota stv (jsToLower m) = true
    · rw [if_pos h1]; exact ⟨_, rfl⟩
    · rw [if_neg h1]
      by_cases h2 : guardBadKey stv (jsToLower m) = true
      · rw [if_pos h2]; exact ⟨_, rfl⟩
      · rw [if_neg h2]
        by_cases h3 : guardAuth stv (jsToLower m) = true
        · rw [if_pos h3]; exact ⟨_, rfl⟩
        · rw [if_neg h3]
          by_cases h4 : guardSafety (jsToLower m) = true
          · rw [if_pos h4]; exact ⟨_, rfl⟩
          · rw [if_neg h4]
            by_cases h5 : guardServer stv (jsToLower m) = true
            · rw [if_pos h5]; exact ⟨_, rfl⟩
            · rw [if_neg h5]; exact ⟨_, rfl⟩
  · intro hno
    have h1 : guardQuota stv (jsToLower m) = false := by
      cases hg : guardQuota stv (jsToLower m) with
      | false => rfl
      | true => rw [matchesAnyPattern, hg] at hno; simp at hno
    have h2 : guardBadKey stv (jsToLower m) = false := by
      cases hg : guardBadKey stv (jsToLower m) with
      | false => rfl
      | true => rw [matchesAnyPattern, hg] at hno; simp at hno
    have h3 : guardAuth stv (jsToLower m) = false := by
      cases hg : guardAuth stv (jsToLower m) with
      | false => rfl
      | true => rw [matchesAnyPattern, hg] at hno; simp at hno
    have h4 : guardSafety (jsToLower m) = false := by
      cases hg : guardSafety (jsToLower m) with
      | false => rfl
      | true => rw [matchesAnyPattern, hg] at hno; simp at hno
    have h5 : guardServer stv (jsToLower m) = false := by
      cases hg : guardServer stv (jsToLower m) with
      | false => rfl
      | true => rw [matchesAnyPattern, hg] at hno; simp at hno
    simp only [classifyGuards, h1, h2, h3, h4, h5, Bool.false_eq_true, if_false]
    rfl

/-- Failure value with an unclassifiable message, for the C8 witness. -/
def oddErr : JVal := JVal.vobj [("message", JVal.vstr "weird")]

/-- C8 witness: the amended totality statement at the concrete unmatched
failure value — default retry, delay 1000, truncated raw message. -/
theorem analyzeError_total_witness :
    extractMsgStatus oddErr = Except.ok (JVal.vstr "weird", JVal.vnum 0) ∧
    matchesAnyPattern (JVal.vnum 0) (jsToLower "weird") = false ∧
    analyzeError oddErr = Except.ok ⟨ErrAct.retry,
      "❌ Hata (" ++ (JVal.vnum 0).jsToString ++ ")", some "weird", 1000⟩ := by
  refine ⟨rfl, rfl, ?_⟩
  exact (analyzeError_total_on_string_msg oddErr "weird" (JVal.vnum 0) rfl).2 rfl

end TS
